import Mathlib

/-!
# GoHttpScan: a verification development

Shallow embedding of `GoHttpScan.go`.

* `checkURL` is a function from the raw input and the outside world (`Env`:
  the URL parser, the HTTP client, the output file) to the trace of its
  observable actions; the console, the text appended to the output file, the
  parser calls, the requests and the Probe Results are projections of the trace.
* `main`, its consumer and producer goroutines and `handleInterrupt` are a
  transition system over program counters and channel contents; an execution is
  a schedule of goroutine steps and signal deliveries.
* Go strings are modelled by Lean `String`s; every prefix the program tests is
  pure ASCII, so the byte-wise comparison of `strings.HasPrefix` and the
  character-wise comparison used here agree.
-/

namespace GoHttpScan

/-! ## Candidate construction (`checkURL`, lines 117-121) -/

/-- Go `strings.HasPrefix(s, prefix)`:
`len(s) >= len(prefix) && s[:len(prefix)] == prefix`. -/
def HasPrefix (s pfx : String) : Bool :=
  decide (pfx.length ≤ s.length) && (s.data.take pfx.length == pfx.data)

/-- The slice `urlsToCheck` built at the top of `checkURL`. -/
def urlsToCheck (rawURL : String) : List String :=
  if !HasPrefix rawURL "http://" && !HasPrefix rawURL "https://" then
    ["http://" ++ rawURL, "https://" ++ rawURL]
  else
    [rawURL]

/-! ## The loop of `checkURL` (lines 123-154) -/

/-- Console channel of a status line: `color.Yellow` is the warn level,
`color.Red` the error level, `color.Green` the success level, and an
uncoloured `fmt.Println` is a plain log line. -/
inductive Level
  | warn
  | error
  | success
  | plain
deriving DecidableEq, Repr

/-- One line printed on the console. -/
structure ConsoleLine where
  level : Level
  text : String
deriving DecidableEq, Repr

/-- Result of `client.Get`: a transport error, or a response with its
`StatusCode`. -/
inductive GetResult
  | err
  | resp (statusCode : Int)
deriving DecidableEq, Repr

/-- Result of `outputFile.WriteString(data)`: success, or an error after `n`
bytes with message `msg`. -/
inductive WriteResult
  | ok
  | err (n : Nat) (msg : String)
deriving DecidableEq, Repr

/-- The outside world `checkURL` talks to.  `ParseRequestURI u` says whether
`url.ParseRequestURI(u)` returns a nil error; `Get u` is the result of
`client.Get(parsedURL.String())` for the candidate `u` (the request target is
a function of `u`); `WriteString data` is the result of writing `data` to the
output file. -/
structure Env where
  ParseRequestURI : String → Bool
  Get : String → GetResult
  WriteString : String → WriteResult

/-- Observable actions of `checkURL`, in program order. -/
inductive Event
  | parse (u : String) (ok : Bool)
  | get (u : String) (r : GetResult)
  | print (line : ConsoleLine)
  | write (data : String) (r : WriteResult)
deriving DecidableEq, Repr

/-- Go `http.StatusOK`. -/
def StatusOK : Int := 200

/-- One iteration of the `for _, u := range urlsToCheck` loop: the events it
performs, and whether the loop goes on (`true`) or `checkURL` returns
(`false`).  The deferred `resp.Body.Close()` has no effect on the console or
on the output file and is left out. -/
def checkOne (env : Env) (u : String) : List Event × Bool :=
  if env.ParseRequestURI u then
    match env.Get u with
    | .err =>
      ([.parse u true, .get u .err,
        .print ⟨.error, "Cannot access " ++ u⟩], true)
    | .resp code =>
      if code = StatusOK then
        match env.WriteString (u ++ "\n") with
        | .ok =>
          ([.parse u true, .get u (.resp code),
            .print ⟨.success, "URL: " ++ u ++ " Status Code: " ++ toString code⟩,
            .write (u ++ "\n") .ok], true)
        | .err n msg =>
          ([.parse u true, .get u (.resp code),
            .print ⟨.success, "URL: " ++ u ++ " Status Code: " ++ toString code⟩,
            .write (u ++ "\n") (.err n msg),
            .print ⟨.plain, "Failed to write to output file: " ++ msg⟩], true)
      else
        ([.parse u true, .get u (.resp code),
          .print ⟨.error, "URL: " ++ u ++ " Status Code: " ++ toString code⟩], true)
  else
    ([.parse u false, .print ⟨.warn, "Malformed URL: " ++ u⟩], false)

/-- The `for` loop of `checkURL` over the remaining candidates. -/
def checkLoop (env : Env) : List String → List Event
  | [] => []
  | u :: rest =>
    if (checkOne env u).2 then (checkOne env u).1 ++ checkLoop env rest
    else (checkOne env u).1

/-- Model of `checkURL(rawURL, outputFile)`: the trace of its actions. -/
def checkURL (env : Env) (rawURL : String) : List Event :=
  checkLoop env (urlsToCheck rawURL)

/-- The sequential scan of a list of Targets: what one consumer does with the
values it receives, `for url := range urls { checkURL(url, outFile) }`. -/
def scanTargets (env : Env) : List String → List Event
  | [] => []
  | t :: ts => checkURL env t ++ scanTargets env ts

/-! ### Projections of a trace -/

/-- The lines shown on the console. -/
def console : List Event → List ConsoleLine
  | [] => []
  | .print l :: es => l :: console es
  | _ :: es => console es

/-- The chunks appended to the output file, one per `WriteString` call: the
whole data on success, the first `n` bytes on an error after `n` bytes. -/
def sinkWrites : List Event → List String
  | [] => []
  | .write data .ok :: es => data :: sinkWrites es
  | .write data (.err n _) :: es => String.mk (data.data.take n) :: sinkWrites es
  | _ :: es => sinkWrites es

/-- Concatenation of strings. -/
def concat : List String → String
  | [] => ""
  | s :: ss => s ++ concat ss

/-- The text appended to the output file. -/
def sinkText (tr : List Event) : String := concat (sinkWrites tr)

/-- Candidates handed to `url.ParseRequestURI`. -/
def parsedURLs : List Event → List String
  | [] => []
  | .parse u _ :: es => u :: parsedURLs es
  | _ :: es => parsedURLs es

/-- Candidates for which `client.Get` was called. -/
def requests : List Event → List String
  | [] => []
  | .get u _ :: es => u :: requests es
  | _ :: es => requests es

/-- Probe Result of the specification. -/
inductive ProbeResult
  | MalformedURL
  | Unreachable
  | Reached (statusCode : Int)
deriving DecidableEq, Repr

/-- The Probe Results of a trace, each with its candidate: a failed parse is
`MalformedURL`, a failed GET is `Unreachable`, a response is `Reached`. -/
def probeResults : List Event → List (String × ProbeResult)
  | [] => []
  | .parse u false :: es => (u, .MalformedURL) :: probeResults es
  | .get u .err :: es => (u, .Unreachable) :: probeResults es
  | .get u (.resp code) :: es => (u, .Reached code) :: probeResults es
  | _ :: es => probeResults es

/-- Every write to the output file succeeds. -/
def WritesSucceed (env : Env) : Prop := ∀ data, env.WriteString data = .ok

/-! ### The specification's reading of one candidate -/

/-- The Probe Result the specification assigns to candidate `u` under `env`. -/
def resultOf (env : Env) (u : String) : ProbeResult :=
  if env.ParseRequestURI u then
    match env.Get u with
    | .err => .Unreachable
    | .resp code => .Reached code
  else
    .MalformedURL

/-- The console level the specification fixes for a Probe Result. -/
def levelOf : ProbeResult → Level
  | .MalformedURL => .warn
  | .Unreachable => .error
  | .Reached code => if code = StatusOK then .success else .error

/-- The console lines the specification attaches to a Probe Result: one status
line, plus one plain log line when the write of a successful candidate fails. -/
def statusLines (env : Env) : String × ProbeResult → List ConsoleLine
  | (u, .MalformedURL) => [⟨.warn, "Malformed URL: " ++ u⟩]
  | (u, .Unreachable) => [⟨.error, "Cannot access " ++ u⟩]
  | (u, .Reached code) =>
    if code = StatusOK then
      match env.WriteString (u ++ "\n") with
      | .ok => [⟨.success, "URL: " ++ u ++ " Status Code: " ++ toString code⟩]
      | .err _ msg =>
        [⟨.success, "URL: " ++ u ++ " Status Code: " ++ toString code⟩,
         ⟨.plain, "Failed to write to output file: " ++ msg⟩]
    else
      [⟨.error, "URL: " ++ u ++ " Status Code: " ++ toString code⟩]

/-- A Probe Result is a success when it is `Reached 200`. -/
def isSuccess (p : String × ProbeResult) : Bool :=
  decide (p.2 = .Reached StatusOK)

/-- A Probe Result is `MalformedURL`. -/
def isMalformed (p : String × ProbeResult) : Bool :=
  decide (p.2 = .MalformedURL)

/-- The results up to and including the first `MalformedURL`. -/
def stopAtMalformed : List (String × ProbeResult) → List (String × ProbeResult)
  | [] => []
  | p :: ps => if isMalformed p then [p] else p :: stopAtMalformed ps

/-- The Probe Results `checkURL` produces for one Target. -/
def resultsOf (env : Env) (rawURL : String) : List (String × ProbeResult) :=
  probeResults (checkURL env rawURL)

/-- A console line that is a status line (not a plain log line). -/
def isStatusLine (l : ConsoleLine) : Bool :=
  decide (l.level ≠ .plain)

/-! ### Sample environments -/

/-- A world in which `http://example.com` answers 200, every other request
fails, every URL parses and every write succeeds. -/
def envHttpOnly : Env where
  ParseRequestURI := fun _ => true
  Get := fun u => if u = "http://example.com" then .resp 200 else .err
  WriteString := fun _ => .ok

/-- A world in which every URL parses, every request is answered with 200
and every write succeeds. -/
def envAllOk : Env where
  ParseRequestURI := fun _ => true
  Get := fun _ => .resp 200
  WriteString := fun _ => .ok

/-- A world in which no URL parses. -/
def envNoParse : Env where
  ParseRequestURI := fun _ => false
  Get := fun _ => .err
  WriteString := fun _ => .ok

/-! ## `url.ParseRequestURI` of the Go standard library

`checkURL` calls `url.ParseRequestURI` of package `net/url`, which is not part
of the repository.  The definitions below transcribe, from the Go standard
library (`src/net/url/url.go`), the part of `parse(rawURL, viaRequest = true)`
that decides whether the returned error is nil.  Strings are lists of
characters; the functions keep the names of the Go functions they follow. -/

namespace url

/-- Go `stringContainsCTLByte`: some byte is `< ' '` or is `0x7f`. -/
def stringContainsCTLByte (s : List Char) : Bool :=
  s.any fun b => decide (b.toNat < 0x20) || decide (b.toNat = 0x7f)

/-- ASCII letter test used by `getScheme` and `shouldEscape`. -/
def isLetter (c : Char) : Bool :=
  (decide ('a'.toNat ≤ c.toNat) && decide (c.toNat ≤ 'z'.toNat)) ||
  (decide ('A'.toNat ≤ c.toNat) && decide (c.toNat ≤ 'Z'.toNat))

/-- ASCII digit test. -/
def isDigit (c : Char) : Bool :=
  decide ('0'.toNat ≤ c.toNat) && decide (c.toNat ≤ '9'.toNat)

/-- The loop of Go `getScheme`, at index `i` with `cs = rawURL[i:]`: `none` is
the error `missing protocol scheme`, `some (scheme, rest)` the two results. -/
def getSchemeLoop (rawURL : List Char) : Nat → List Char → Option (List Char × List Char)
  | _, [] => some ([], rawURL)
  | i, c :: cs =>
    if isLetter c then getSchemeLoop rawURL (i + 1) cs
    else if isDigit c || c == '+' || c == '-' || c == '.' then
      if i = 0 then some ([], rawURL) else getSchemeLoop rawURL (i + 1) cs
    else if c == ':' then
      if i = 0 then none else some (rawURL.take i, rawURL.drop (i + 1))
    else some ([], rawURL)

/-- Go `getScheme`. -/
def getScheme (rawURL : List Char) : Option (List Char × List Char) :=
  getSchemeLoop rawURL 0 rawURL

/-- Go `ishex`. -/
def ishex (c : Char) : Bool :=
  isDigit c ||
  (decide ('a'.toNat ≤ c.toNat) && decide (c.toNat ≤ 'f'.toNat)) ||
  (decide ('A'.toNat ≤ c.toNat) && decide (c.toNat ≤ 'F'.toNat))

/-- Go `unhex`. -/
def unhex (c : Char) : Nat :=
  if isDigit c then c.toNat - '0'.toNat
  else if decide ('a'.toNat ≤ c.toNat) && decide (c.toNat ≤ 'f'.toNat) then
    c.toNat - 'a'.toNat + 10
  else if decide ('A'.toNat ≤ c.toNat) && decide (c.toNat ≤ 'F'.toNat) then
    c.toNat - 'A'.toNat + 10
  else 0

/-- Go `shouldEscape(c, encodeHost)` (the same for `encodeZone`), on the byte
value `c`: letters, digits, the sub-delimiters the host may hold, and the
unreserved marks need no escape; everything else does. -/
def shouldEscapeHost (c : Nat) : Bool :=
  if ('a'.toNat ≤ c ∧ c ≤ 'z'.toNat) ∨ ('A'.toNat ≤ c ∧ c ≤ 'Z'.toNat) ∨
      ('0'.toNat ≤ c ∧ c ≤ '9'.toNat) then false
  else if c ∈ ['!'.toNat, '$'.toNat, '&'.toNat, 39, '('.toNat, ')'.toNat, '*'.toNat,
      '+'.toNat, ','.toNat, ';'.toNat, '='.toNat, ':'.toNat, '['.toNat, ']'.toNat,
      '<'.toNat, '>'.toNat, '"'.toNat] then false
  else if c ∈ ['-'.toNat, '_'.toNat, '.'.toNat, '~'.toNat] then false
  else true

/-- The encoding modes `unescape` is called with while parsing. -/
inductive encoding
  | encodePath
  | encodeHost
  | encodeZone
  | encodeUserPassword
deriving DecidableEq, Repr

/-- The first, validating loop of Go `unescape(s, mode)`: `true` when no
`EscapeError` or `InvalidHostError` is returned. -/
def unescape (mode : encoding) : List Char → Bool
  | [] => true
  | '%' :: h1 :: h2 :: rest =>
    if !ishex h1 || !ishex h2 then false
    else if mode = .encodeHost && decide (unhex h1 < 8) && !(h1 == '2' && h2 == '5') then false
    else if mode = .encodeZone && !(h1 == '2' && h2 == '5') &&
        unhex h1 * 16 + unhex h2 != ' '.toNat &&
        shouldEscapeHost (unhex h1 * 16 + unhex h2) then false
    else unescape mode rest
  | '%' :: _ => false
  | '+' :: rest => unescape mode rest
  | c :: rest =>
    if (mode = .encodeHost || mode = .encodeZone) && decide (c.toNat < 0x80) &&
        shouldEscapeHost c.toNat then false
    else unescape mode rest

/-- Go `validOptionalPort`: empty, or `:` followed by digits only. -/
def validOptionalPort : List Char → Bool
  | [] => true
  | c :: rest => c == ':' && rest.all isDigit

/-- Go `validUserinfo`. -/
def validUserinfo (s : List Char) : Bool :=
  s.all fun r => isLetter r || isDigit r ||
    r.toNat ∈ ['-'.toNat, '.'.toNat, '_'.toNat, ':'.toNat, '~'.toNat, '!'.toNat, '$'.toNat,
      '&'.toNat, 39, '('.toNat, ')'.toNat, '*'.toNat, '+'.toNat, ','.toNat, ';'.toNat,
      '='.toNat, '%'.toNat, '@'.toNat]

/-- Go `strings.LastIndex(s, string(c))` for a one-byte separator. -/
def lastIndex (c : Char) (s : List Char) : Option Nat :=
  match s.reverse.indexOf? c with
  | some j => some (s.length - 1 - j)
  | none => none

/-- Go `strings.Index(s, sub)`, scanning from offset `i`. -/
def indexFrom (sub : List Char) : Nat → List Char → Option Nat
  | i, [] => if sub.isEmpty then some i else none
  | i, c :: cs => if sub.isPrefixOf (c :: cs) then some i else indexFrom sub (i + 1) cs

/-- Go `parseHost`: `true` when the error is nil.  This is the function of
Go 1.21; later releases also require a bracketed host to be an IPv6 address and
reject a bracket or a second colon elsewhere in the host.  For a host without
brackets and with at most one colon, such as the host `:` of the candidates of
`://bad`, the releases agree. -/
def parseHost (host : List Char) : Bool :=
  if ['['].isPrefixOf host then
    match lastIndex ']' host with
    | none => false
    | some i =>
      if !validOptionalPort (host.drop (i + 1)) then false
      else
        match indexFrom ['%', '2', '5'] 0 (host.take i) with
        | some zone =>
          unescape .encodeHost (host.take zone) &&
          unescape .encodeZone ((host.take i).drop zone) &&
          unescape .encodeHost (host.drop i)
        | none => unescape .encodeHost host
  else
    match lastIndex ':' host with
    | some i =>
      if !validOptionalPort (host.drop i) then false else unescape .encodeHost host
    | none => unescape .encodeHost host

/-- Go `parseAuthority`: `true` when the error is nil. -/
def parseAuthority (authority : List Char) : Bool :=
  match lastIndex '@' authority with
  | none => parseHost authority
  | some i =>
    if !parseHost (authority.drop (i + 1)) then false
    else if !validUserinfo (authority.take i) then false
    else if !(authority.take i).contains ':' then
      unescape .encodeUserPassword (authority.take i)
    else
      unescape .encodeUserPassword ((authority.take i).takeWhile (· != ':')) &&
      unescape .encodeUserPassword (((authority.take i).dropWhile (· != ':')).drop 1)

/-- Go `parse(rawURL, true)`: `true` when the error is nil.  The query is cut
off at the first `?` (both branches of the `ForceQuery` test leave the text
before the first `?` in `rest`). -/
def parse (rawURL : List Char) : Bool :=
  if stringContainsCTLByte rawURL then false
  else if rawURL.isEmpty then false
  else if rawURL = ['*'] then true
  else
    match getScheme rawURL with
    | none => false
    | some (scheme, rest0) =>
      let rest := rest0.takeWhile (· != '?')
      if ['/'].isPrefixOf rest then
        if !scheme.isEmpty && ['/', '/'].isPrefixOf rest then
          let authority := (rest.drop 2).takeWhile (· != '/')
          let path := (rest.drop 2).dropWhile (· != '/')
          if !parseAuthority authority then false else unescape .encodePath path
        else unescape .encodePath rest
      else
        if !scheme.isEmpty then true else false

/-- Go `url.ParseRequestURI(rawURL)`: `true` when the error is nil. -/
def ParseRequestURI (rawURL : String) : Bool :=
  parse rawURL.data

end url

/-- A world with the parser of the Go standard library, in which no request
reaches a server and every write succeeds. -/
def envGo : Env where
  ParseRequestURI := url.ParseRequestURI
  Get := fun _ => .err
  WriteString := fun _ => .ok


/-! ## `main` and `handleInterrupt` (lines 40-110) as a transition system

The goroutines of the program are modelled by program counters and the
channels by their contents; one step is one action of one goroutine, chosen
by the scheduler, or the delivery of a signal by the operating system.  The
banner and the flag parsing before line 40 are left out; the flags are the
fields of `Config`. -/

/-- The command line and the files as `main` finds them.  `lines` are the
lines `scanner.Scan()` yields before it returns false, and `readErr` is the
error the scanner then holds (`none` at the end of the file). -/
structure Config where
  showHelp : Bool
  inputFile : String
  threads : Int
  openErr : Option String
  createErr : Option String
  lines : List String
  readErr : Option String

/-- Program counter of `main`. -/
inductive MainPC
  | start
  | makeGuard
  | spawn (i : Nat)
  | goInterrupt
  | goProducer
  | wait
  | done
deriving DecidableEq, Repr

/-- How the process stands: still running, ended by the return of `main`,
ended by `os.Exit(0)`, ended by a runtime panic, or ended by a signal that no
handler was registered for. -/
inductive Status
  | running
  | returned
  | exited
  | panicked
  | killed
deriving DecidableEq, Repr

/-- Program counter of the producer goroutine (lines 83-93). -/
inductive ProducerPC
  | notStarted
  | scan
  | select (text : String)
  | done
deriving DecidableEq, Repr

/-- Program counter of a consumer goroutine (lines 71-78): waiting on
`range urls`, blocked on `guard <- struct{}{}` with the received value,
inside `checkURL` with the candidates still to visit, at `<-guard`, or
finished (`wg.Done()` executed). -/
inductive ConsumerPC
  | recv
  | acquire (url : String)
  | running (rest : List String)
  | release
  | done
deriving DecidableEq, Repr

/-- Program counter of `handleInterrupt` (lines 102-110). -/
inductive HandlerPC
  | notStarted
  | notify
  | recv
  | print
  | close
  | exit
deriving DecidableEq, Repr

/-- State of the process.  `unread` are the lines the scanner has not yet
returned, `scanErr` what `scanner.Err()` returns, `sent` the values sent on
`urls` so far, `guard` the number of
values held in the guard channel, `wg` the WaitGroup counter, `quitBuf` the
number of signal values buffered in `quitChan` (capacity 1), `trace` the
actions performed so far. -/
structure State where
  pc : MainPC
  status : Status
  unread : List String
  scanErr : Option String
  producer : ProducerPC
  urlsClosed : Bool
  sent : List String
  consumers : List ConsumerPC
  guard : Nat
  wg : Nat
  handler : HandlerPC
  notified : Bool
  quitBuf : Nat
  quitClosed : Bool
  trace : List Event
deriving DecidableEq

/-- A scheduling choice: which goroutine moves, or a signal arrives. -/
inductive Action
  | main
  | consumer (i : Nat)
  | producer
  | handler
  | signal
deriving DecidableEq, Repr

/-- The state at line 40. -/
def init (cfg : Config) : State where
  pc := .start
  status := .running
  unread := cfg.lines
  scanErr := none
  producer := .notStarted
  urlsClosed := false
  sent := []
  consumers := []
  guard := 0
  wg := 0
  handler := .notStarted
  notified := false
  quitBuf := 0
  quitClosed := false
  trace := []

/-- The usage text of lines 41-45. -/
def usage : List ConsoleLine :=
  [⟨.plain, "Usage: GoHttpScan -l <urls.txt> -o <output.txt> [-t <threads>] [-h]"⟩,
   ⟨.plain, " -l : URL list file"⟩,
   ⟨.plain, " -o : Output file (default output.txt)"⟩,
   ⟨.plain, " -t : Number of threads (default 10)"⟩,
   ⟨.plain, " -h : Show help"⟩]

/-- One step of `main`.  `make(chan struct{}, n)` panics for a negative `n`;
`wg.Wait()` blocks until the counter is zero, and is followed by the report of
the scanner's error (lines 97-99) and the return. -/
def stepMain (cfg : Config) (s : State) : Option State :=
  match s.pc with
  | .start =>
    if cfg.showHelp || cfg.inputFile == "" then
      some { s with trace := s.trace ++ usage.map .print, pc := .done, status := .returned }
    else
      match cfg.openErr with
      | some e =>
        some { s with trace := s.trace ++ [.print ⟨.plain, "Failed to open file: " ++ e⟩],
                      pc := .done, status := .returned }
      | none =>
        match cfg.createErr with
        | some e =>
          some { s with
            trace := s.trace ++ [.print ⟨.plain, "Failed to create output file: " ++ e⟩],
            pc := .done, status := .returned }
        | none => some { s with pc := .makeGuard }
  | .makeGuard =>
    if cfg.threads < 0 then some { s with status := .panicked }
    else some { s with pc := .spawn 0 }
  | .spawn i =>
    if (i : Int) < cfg.threads then
      some { s with wg := s.wg + 1, consumers := s.consumers ++ [.recv], pc := .spawn (i + 1) }
    else some { s with pc := .goInterrupt }
  | .goInterrupt => some { s with handler := .notify, pc := .goProducer }
  | .goProducer => some { s with producer := .scan, pc := .wait }
  | .wait =>
    if s.wg = 0 then
      match s.scanErr with
      | some e =>
        some { s with trace := s.trace ++ [.print ⟨.plain, "Error reading file: " ++ e⟩],
                      pc := .done, status := .returned }
      | none => some { s with pc := .done, status := .returned }
    else none
  | .done => none

/-- One step of consumer `i`.  The receive on `urls` pairs with the producer's
send when the producer is in its `select`, and ends the loop when `urls` is
closed; the send on `guard` needs a free slot; inside `checkURL` one step is
one iteration of the loop over the candidates. -/
def stepConsumer (cfg : Config) (env : Env) (i : Nat) (s : State) : Option State :=
  match s.consumers[i]? with
  | none => none
  | some .recv =>
    match s.producer with
    | .select text =>
      some { s with consumers := s.consumers.set i (.acquire text), producer := .scan,
                    sent := s.sent ++ [text] }
    | _ =>
      if s.urlsClosed then
        some { s with consumers := s.consumers.set i .done, wg := s.wg - 1 }
      else none
  | some (.acquire url) =>
    if s.guard < cfg.threads.toNat then
      some { s with guard := s.guard + 1,
                    consumers := s.consumers.set i (.running (urlsToCheck url)) }
    else none
  | some (.running []) => some { s with consumers := s.consumers.set i .release }
  | some (.running (u :: rest)) =>
    some { s with trace := s.trace ++ (checkOne env u).1,
                  consumers := s.consumers.set i
                    (.running (if (checkOne env u).2 then rest else [])) }
  | some .release =>
    some { s with guard := s.guard - 1, consumers := s.consumers.set i .recv }
  | some .done => none

/-- One step of the producer on its own: `scanner.Scan()`, after whose last
line the scanner holds its error and `urls` is closed, or the `<-quitChan` case
of the `select`, enabled by a buffered signal value or by the closed channel. -/
def stepProducer (cfg : Config) (s : State) : Option State :=
  match s.producer with
  | .notStarted => none
  | .scan =>
    match s.unread with
    | [] => some { s with scanErr := cfg.readErr, urlsClosed := true, producer := .done }
    | l :: ls => some { s with unread := ls, producer := .select l }
  | .select _ =>
    if 0 < s.quitBuf then
      some { s with quitBuf := s.quitBuf - 1, urlsClosed := true, producer := .done }
    else if s.quitClosed then some { s with urlsClosed := true, producer := .done }
    else none
  | .done => none

/-- One step of `handleInterrupt`. -/
def stepHandler (s : State) : Option State :=
  match s.handler with
  | .notStarted => none
  | .notify => some { s with notified := true, handler := .recv }
  | .recv =>
    if 0 < s.quitBuf then some { s with quitBuf := s.quitBuf - 1, handler := .print }
    else if s.quitClosed then some { s with handler := .print }
    else none
  | .print => some { s with trace := s.trace ++ [.print ⟨.plain, "Exit"⟩], handler := .close }
  | .close =>
    if s.quitClosed then some { s with status := .panicked }
    else some { s with quitClosed := true, handler := .exit }
  | .exit => some { s with status := .exited }

/-- Delivery of `os.Interrupt` or `SIGTERM`: once `signal.Notify` has
registered `quitChan`, the value is sent without blocking (dropped when the
buffer is full, a panic when the channel is closed); before that, the signal
ends the process. -/
def stepSignal (s : State) : Option State :=
  if s.notified then
    if s.quitClosed then some { s with status := .panicked }
    else if s.quitBuf < 1 then some { s with quitBuf := s.quitBuf + 1 }
    else some s
  else some { s with status := .killed }

/-- One step of the process; `none` when the chosen goroutine is blocked or
the process has ended. -/
def step (cfg : Config) (env : Env) (a : Action) (s : State) : Option State :=
  if s.status = .running then
    match a with
    | .main => stepMain cfg s
    | .consumer i => stepConsumer cfg env i s
    | .producer => stepProducer cfg s
    | .handler => stepHandler s
    | .signal => stepSignal s
  else none

/-- A schedule run from a state. -/
def run (cfg : Config) (env : Env) : List Action → State → Option State
  | [], s => some s
  | a :: as, s =>
    match step cfg env a s with
    | some s' => run cfg env as s'
    | none => none

/-- The states of the executions: those a schedule reaches from `init`. -/
def Reachable (cfg : Config) (env : Env) (s : State) : Prop :=
  ∃ acts, run cfg env acts (init cfg) = some s

/-- A consumer that is inside `checkURL`. -/
def ConsumerPC.isRunning : ConsumerPC → Bool
  | .running _ => true
  | _ => false

/-- A consumer that holds a slot of the guard channel. -/
def ConsumerPC.holdsGuard : ConsumerPC → Bool
  | .running _ => true
  | .release => true
  | _ => false

/-- The number of `checkURL` invocations in progress. -/
def active (s : State) : Nat := s.consumers.countP ConsumerPC.isRunning

/-- A command line that passes the checks of lines 40-61, with `t` threads
and the given input lines, read without error. -/
def goodConfig (t : Int) (lines : List String) : Config where
  showHelp := false
  inputFile := "urls.txt"
  threads := t
  openErr := none
  createErr := none
  lines := lines
  readErr := none

/-- The schedule in which `main` starts one consumer, the handler registers,
the producer reads the first line, a signal arrives, the producer's `select`
takes it, the consumer sees `urls` closed, and `main` returns. -/
def stolenSignalSchedule : List Action :=
  [.main, .main, .main, .main, .main, .main, .handler, .producer, .signal, .producer,
   .consumer 0, .main]


/-- What the spawn loop of `main` maintains: the guard channel holds one value
per consumer between its send and its receive on `guard`, and the consumers
started so far are as many as the loop counter says, `*threads` once the loop
is over. -/
def PoolInv (cfg : Config) (s : State) : Prop :=
  s.guard = s.consumers.countP ConsumerPC.holdsGuard ∧
  match s.pc with
  | .start => s.consumers = [] ∧ s.producer = .notStarted
  | .makeGuard => s.consumers = [] ∧ s.producer = .notStarted
  | .spawn i => s.consumers.length = i ∧ (i : Int) ≤ cfg.threads ∧ s.producer = .notStarted
  | .goInterrupt => (s.consumers.length : Int) = cfg.threads ∧ s.producer = .notStarted
  | .goProducer => (s.consumers.length : Int) = cfg.threads ∧ s.producer = .notStarted
  | .wait => (s.consumers.length : Int) = cfg.threads
  | .done =>
    (s.producer = .notStarted ∧ s.consumers = []) ∨ (s.consumers.length : Int) = cfg.threads


/-- The line `handleInterrupt` prints. -/
def exitLine : ConsoleLine := ⟨.plain, "Exit"⟩

/-- What `handleInterrupt` maintains: past its `fmt.Println`, the line `Exit`
is on the console, and the process has ended through `os.Exit` only from the
last statement of `handleInterrupt`. -/
def ExitInv (s : State) : Prop :=
  (s.handler = .close ∨ s.handler = .exit → exitLine ∈ console s.trace) ∧
  (s.status = .exited → s.handler = .exit)

/-- The state a schedule leads to from `init` (`init` itself when the schedule
asks a blocked goroutine to move). -/
def stateAfter (cfg : Config) (env : Env) (acts : List Action) : State :=
  (run cfg env acts (init cfg)).getD (init cfg)


/-- The schedule in which `main` runs alone up to `wg.Wait()` and beyond, for
a thread count of zero: lines 40-61, the allocation of `guard`, the loop test,
the two `go` statements, `wg.Wait()`. -/
def mainOnlySchedule : List Action :=
  [.main, .main, .main, .main, .main, .main]

/-- The schedule in which one consumer has received a Target, taken a guard
slot and entered `checkURL`. -/
def oneRunningSchedule : List Action :=
  [.main, .main, .main, .main, .main, .main, .producer, .consumer 0, .consumer 0]

/-- The schedule in which the handler takes the signal, prints, closes
`quitChan` and leaves through `os.Exit(0)`. -/
def handlerExitSchedule : List Action :=
  [.main, .main, .main, .main, .main, .main, .handler, .producer, .signal, .handler,
   .handler, .handler, .handler]


/-- No Target has been handed to a consumer and no candidate has been parsed,
requested or written. -/
def NoWork (s : State) : Prop :=
  s.sent = [] ∧ parsedURLs s.trace = [] ∧ requests s.trace = [] ∧ sinkWrites s.trace = []


/-- The sink chunks a consumer still has to write for the Target it holds. -/
def pendingConsumer (env : Env) : ConsumerPC → List String
  | .acquire url => sinkWrites (checkURL env url)
  | .running rest => sinkWrites (checkLoop env rest)
  | _ => []

/-- The sink chunks of the Target the producer holds in its `select`. -/
def pendingProducer (env : Env) : ProducerPC → List String
  | .select text => sinkWrites (checkURL env text)
  | _ => []

/-- How often the chunk `x` is still to be written: by the consumers, for the
Target the producer holds, and for the lines not yet read. -/
def owed (env : Env) (x : String) (s : State) : Nat :=
  (s.consumers.map fun c => (pendingConsumer env c).count x).sum +
    (pendingProducer env s.producer).count x +
    (sinkWrites (scanTargets env s.unread)).count x

/-- A consumer that has not left its loop. -/
def ConsumerPC.alive (c : ConsumerPC) : Bool :=
  decide (c ≠ .done)

/-- What holds along an execution in which no signal arrives: `quitChan` stays
empty and open and the handler never gets past its receive; the WaitGroup
counts the consumers still in their loop; a consumer has left its loop only
after `urls` was closed, which the producer does only at the end of the input;
`main` has returned only from `wg.Wait()`; and every chunk of the sequential
scan is either written or still owed. -/
def QuietInv (cfg : Config) (env : Env) (s : State) : Prop :=
  s.quitBuf = 0 ∧ s.quitClosed = false ∧
  (s.handler = .notStarted ∨ s.handler = .notify ∨ s.handler = .recv) ∧
  s.wg = s.consumers.countP ConsumerPC.alive ∧
  (ConsumerPC.done ∈ s.consumers → s.urlsClosed = true) ∧
  (s.urlsClosed = true → s.producer = .done ∧ s.unread = []) ∧
  (s.status = .returned →
    s.pc = .done ∧ s.wg = 0 ∧ (s.consumers.length : Int) = cfg.threads) ∧
  (∀ x, (sinkWrites s.trace).count x + owed env x s =
    (sinkWrites (scanTargets env cfg.lines)).count x)

/-- A complete run of one consumer over the single line `example.com`. -/
def completeSchedule : List Action :=
  [.main, .main, .main, .main, .main, .main, .producer, .consumer 0, .consumer 0,
   .consumer 0, .consumer 0, .consumer 0, .consumer 0, .producer, .consumer 0, .main]


/-! # Theorems -/

/-! ## Projections and appends -/

theorem console_append (a b : List Event) : console (a ++ b) = console a ++ console b := by
  induction a with
  | nil => rfl
  | cons e es ih => cases e <;> simp [console, ih]

theorem sinkWrites_append (a b : List Event) :
    sinkWrites (a ++ b) = sinkWrites a ++ sinkWrites b := by
  induction a with
  | nil => rfl
  | cons e es ih =>
    cases e with
    | write d r => cases r <;> simp [sinkWrites, ih]
    | _ => simp [sinkWrites, ih]

theorem parsedURLs_append (a b : List Event) :
    parsedURLs (a ++ b) = parsedURLs a ++ parsedURLs b := by
  induction a with
  | nil => rfl
  | cons e es ih => cases e <;> simp [parsedURLs, ih]

theorem requests_append (a b : List Event) :
    requests (a ++ b) = requests a ++ requests b := by
  induction a with
  | nil => rfl
  | cons e es ih => cases e <;> simp [requests, ih]

theorem probeResults_append (a b : List Event) :
    probeResults (a ++ b) = probeResults a ++ probeResults b := by
  induction a with
  | nil => rfl
  | cons e es ih =>
    cases e with
    | parse u ok => cases ok <;> simp [probeResults, ih]
    | get u r => cases r <;> simp [probeResults, ih]
    | _ => simp [probeResults, ih]

/-! ## One iteration of the loop -/

theorem checkOne_probeResults (env : Env) (u : String) :
    probeResults (checkOne env u).1 = [(u, resultOf env u)] := by
  unfold checkOne resultOf
  split
  · split
    · rfl
    · split
      · split <;> rfl
      · rfl
  · rfl

theorem checkOne_continue (env : Env) (u : String) :
    (checkOne env u).2 = !isMalformed (u, resultOf env u) := by
  unfold checkOne resultOf isMalformed
  split
  · split
    · rfl
    · split
      · split <;> rfl
      · rfl
  · rfl

theorem checkOne_console (env : Env) (u : String) :
    console (checkOne env u).1 = statusLines env (u, resultOf env u) := by
  unfold checkOne resultOf
  split
  · split
    · rfl
    · rename_i code _
      by_cases hc : code = StatusOK
      · simp only [hc, if_true, statusLines]
        split <;> simp_all [console]
      · simp [hc, statusLines, console]
  · rfl

theorem checkOne_parsedURLs (env : Env) (u : String) :
    parsedURLs (checkOne env u).1 = [u] := by
  unfold checkOne
  split
  · split
    · rfl
    · split
      · split <;> rfl
      · rfl
  · rfl

theorem checkOne_requests (env : Env) (u : String) :
    requests (checkOne env u).1 = if isMalformed (u, resultOf env u) then [] else [u] := by
  unfold checkOne resultOf isMalformed
  split
  · split
    · rfl
    · split
      · split <;> rfl
      · rfl
  · rfl

theorem checkOne_sinkWrites (env : Env) (h : WritesSucceed env) (u : String) :
    sinkWrites (checkOne env u).1 =
      if isSuccess (u, resultOf env u) then [u ++ "\n"] else [] := by
  unfold checkOne resultOf isSuccess
  split
  · split
    · rfl
    · rename_i code _
      by_cases hc : code = StatusOK
      · simp [hc, h (u ++ "\n"), sinkWrites]
      · simp [hc, sinkWrites]
  · rfl

/-! ## The whole loop -/

theorem checkLoop_probeResults (env : Env) (cs : List String) :
    probeResults (checkLoop env cs) =
      stopAtMalformed (cs.map fun u => (u, resultOf env u)) := by
  induction cs with
  | nil => rfl
  | cons u rest ih =>
    simp only [checkLoop, List.map_cons, stopAtMalformed, checkOne_continue]
    by_cases hm : isMalformed (u, resultOf env u) = true
    · simp [hm, checkOne_probeResults]
    · simp [hm, probeResults_append, checkOne_probeResults, ih]

theorem checkLoop_console (env : Env) (cs : List String) :
    console (checkLoop env cs) =
      (probeResults (checkLoop env cs)).flatMap (statusLines env) := by
  induction cs with
  | nil => rfl
  | cons u rest ih =>
    simp only [checkLoop, checkOne_continue]
    by_cases hm : isMalformed (u, resultOf env u) = true
    · simp [hm, checkOne_probeResults, checkOne_console]
    · simp [hm, probeResults_append, console_append, checkOne_probeResults,
        checkOne_console, ih]

theorem checkLoop_sinkWrites (env : Env) (h : WritesSucceed env) (cs : List String) :
    sinkWrites (checkLoop env cs) =
      ((probeResults (checkLoop env cs)).filter isSuccess).map fun p => p.1 ++ "\n" := by
  induction cs with
  | nil => rfl
  | cons u rest ih =>
    simp only [checkLoop, checkOne_continue]
    by_cases hm : isMalformed (u, resultOf env u) = true
    · have hs : isSuccess (u, resultOf env u) = false := by
        simp only [isMalformed, decide_eq_true_eq] at hm
        simp [isSuccess, hm]
      simp [hm, hs, checkOne_probeResults, checkOne_sinkWrites env h]
    · by_cases hs : isSuccess (u, resultOf env u) = true
      · simp [hm, hs, probeResults_append, sinkWrites_append, checkOne_probeResults,
          checkOne_sinkWrites env h, ih]
      · simp [hm, hs, probeResults_append, sinkWrites_append, checkOne_probeResults,
          checkOne_sinkWrites env h, ih]

theorem checkLoop_parsedURLs (env : Env) (cs : List String) :
    parsedURLs (checkLoop env cs) = (probeResults (checkLoop env cs)).map Prod.fst := by
  induction cs with
  | nil => rfl
  | cons u rest ih =>
    simp only [checkLoop, checkOne_continue]
    by_cases hm : isMalformed (u, resultOf env u) = true
    · simp [hm, checkOne_probeResults, checkOne_parsedURLs]
    · simp [hm, probeResults_append, parsedURLs_append, checkOne_probeResults,
        checkOne_parsedURLs, ih]

theorem checkLoop_requests (env : Env) (cs : List String) :
    requests (checkLoop env cs) =
      ((probeResults (checkLoop env cs)).filter fun p => !isMalformed p).map Prod.fst := by
  induction cs with
  | nil => rfl
  | cons u rest ih =>
    simp only [checkLoop, checkOne_continue]
    by_cases hm : isMalformed (u, resultOf env u) = true
    · simp [hm, checkOne_probeResults, checkOne_requests]
    · simp [hm, probeResults_append, requests_append, checkOne_probeResults,
        checkOne_requests, ih]

/-! ## Stopping at the first malformed candidate -/

theorem stopAtMalformed_length_le (l : List (String × ProbeResult)) :
    (stopAtMalformed l).length ≤ l.length := by
  induction l with
  | nil => simp [stopAtMalformed]
  | cons p ps ih =>
    simp only [stopAtMalformed]
    split
    · simp
    · simp only [List.length_cons]; omega

theorem stopAtMalformed_eq_take (l : List (String × ProbeResult)) :
    stopAtMalformed l = l.take (stopAtMalformed l).length := by
  induction l with
  | nil => simp [stopAtMalformed]
  | cons p ps ih =>
    simp only [stopAtMalformed]
    split
    · simp
    · simp only [List.length_cons, List.take_succ_cons]
      rw [← ih]

theorem stopAtMalformed_short (l : List (String × ProbeResult))
    (h : (stopAtMalformed l).length < l.length) :
    ∃ p, (stopAtMalformed l).getLast? = some p ∧ isMalformed p = true := by
  induction l with
  | nil => simp at h
  | cons p ps ih =>
    simp only [stopAtMalformed] at h ⊢
    by_cases hm : isMalformed p = true
    · exact ⟨p, by simp [hm], hm⟩
    · simp only [hm, if_false, Bool.false_eq_true, List.length_cons,
        Nat.add_lt_add_iff_right] at h ⊢
      obtain ⟨q, hq, hqm⟩ := ih h
      refine ⟨q, ?_, hqm⟩
      cases hs : stopAtMalformed ps with
      | nil => simp [hs] at hq
      | cons a as => rw [hs] at hq; simpa [List.getLast?_cons_cons] using hq

theorem stopAtMalformed_malformed_last (l : List (String × ProbeResult)) (i : Nat)
    (p : String × ProbeResult) (h : (stopAtMalformed l)[i]? = some p)
    (hm : isMalformed p = true) : i + 1 = (stopAtMalformed l).length := by
  induction l generalizing i with
  | nil => simp [stopAtMalformed] at h
  | cons q qs ih =>
    simp only [stopAtMalformed] at h ⊢
    by_cases hq : isMalformed q = true
    · simp only [hq, if_true] at h ⊢
      cases i with
      | zero => rfl
      | succ j => simp at h
    · simp only [hq, if_false, Bool.false_eq_true] at h ⊢
      cases i with
      | zero =>
        simp only [List.getElem?_cons_zero, Option.some.injEq] at h
        exact absurd (h ▸ hm) hq
      | succ j =>
        simp only [List.getElem?_cons_succ] at h
        simp only [List.length_cons]
        rw [ih j h]

theorem stopAtMalformed_goes_on (l : List (String × ProbeResult)) (i : Nat)
    (p : String × ProbeResult) (h : (stopAtMalformed l)[i]? = some p)
    (hm : isMalformed p = false) (hi : i + 1 < l.length) :
    i + 1 < (stopAtMalformed l).length := by
  induction l generalizing i with
  | nil => simp [stopAtMalformed] at h
  | cons q qs ih =>
    simp only [stopAtMalformed] at h ⊢
    by_cases hq : isMalformed q = true
    · simp only [hq, if_true] at h
      cases i with
      | zero =>
        simp only [List.getElem?_cons_zero, Option.some.injEq] at h
        rw [h] at hq; rw [hq] at hm; exact absurd hm (by decide)
      | succ j => simp at h
    · simp only [hq, if_false, Bool.false_eq_true] at h ⊢
      simp only [List.length_cons] at hi ⊢
      cases i with
      | zero =>
        cases qs with
        | nil => simp at hi
        | cons r rs =>
          simp only [stopAtMalformed]
          split <;> simp
      | succ j =>
        simp only [List.getElem?_cons_succ] at h
        have := ih j h (by omega)
        omega

/-! ## The scan of a list of Targets -/

theorem scanTargets_sinkWrites (env : Env) (h : WritesSucceed env) (ts : List String) :
    sinkWrites (scanTargets env ts) =
      ((probeResults (scanTargets env ts)).filter isSuccess).map fun p => p.1 ++ "\n" := by
  induction ts with
  | nil => rfl
  | cons t ts ih =>
    simp only [scanTargets, sinkWrites_append, probeResults_append, List.filter_append,
      List.map_append, ih, checkURL, checkLoop_sinkWrites env h]

theorem resultOf_reached (env : Env) (u : String) (code : Int)
    (h : resultOf env u = .Reached code) :
    env.ParseRequestURI u = true ∧ env.Get u = .resp code := by
  unfold resultOf at h
  split at h
  · rename_i hp
    refine ⟨hp, ?_⟩
    split at h
    · cases h
    · rename_i c hg
      cases h
      exact hg
  · cases h

theorem resultOf_unreachable (env : Env) (u : String)
    (h : resultOf env u = .Unreachable) :
    env.ParseRequestURI u = true ∧ env.Get u = .err := by
  unfold resultOf at h
  split at h
  · rename_i hp
    refine ⟨hp, ?_⟩
    split at h
    · assumption
    · cases h
  · cases h

/-- Every assignment of Probe Results to candidates is the one of some world
whose writes succeed. -/
theorem assignment_realised (f : String → ProbeResult) :
    ∃ env : Env, WritesSucceed env ∧ ∀ u, resultOf env u = f u := by
  refine ⟨⟨fun u => decide (f u ≠ .MalformedURL),
    fun u => match f u with
      | .Reached code => .resp code
      | _ => .err,
    fun _ => .ok⟩, fun _ => rfl, ?_⟩
  intro u
  unfold resultOf
  cases hf : f u <;> simp [hf]

theorem statusLines_levels (env : Env) (p : String × ProbeResult) :
    ((statusLines env p).filter isStatusLine).map ConsoleLine.level = [levelOf p.2] := by
  obtain ⟨u, r⟩ := p
  cases r with
  | MalformedURL => rfl
  | Unreachable => rfl
  | Reached code =>
    by_cases hc : code = StatusOK
    · simp only [statusLines, hc, if_true, levelOf]
      split <;> rfl
    · simp only [statusLines, hc, if_false, levelOf]
      rfl

theorem flatMap_statusLines_levels (env : Env) (rs : List (String × ProbeResult)) :
    ((rs.flatMap (statusLines env)).filter isStatusLine).map ConsoleLine.level =
      rs.map fun p => levelOf p.2 := by
  induction rs with
  | nil => rfl
  | cons p ps ih =>
    simp only [List.flatMap_cons, List.filter_append, List.map_append, List.map_cons, ih,
      statusLines_levels]
    rfl

/-! ## Candidate construction -/

theorem HasPrefix_iff (s pfx : String) :
    HasPrefix s pfx = true ↔ ∃ r : String, s = pfx ++ r := by
  unfold HasPrefix
  constructor
  · intro h
    simp only [Bool.and_eq_true, decide_eq_true_eq, beq_iff_eq] at h
    refine ⟨String.mk (s.data.drop pfx.length), ?_⟩
    apply String.ext
    rw [String.data_append, ← h.2]
    exact (List.take_append_drop _ _).symm
  · rintro ⟨r, rfl⟩
    have h1 : pfx.length ≤ (pfx ++ r).length := by
      rw [String.length_append]; exact Nat.le_add_right _ _
    have h2 : (pfx ++ r).data.take pfx.length = pfx.data := by
      rw [String.data_append]
      exact List.take_left pfx.data r.data
    rw [Bool.and_eq_true, decide_eq_true_eq, beq_iff_eq]
    exact ⟨h1, h2⟩

theorem urlsToCheck_with_scheme (s : String)
    (h : HasPrefix s "http://" = true ∨ HasPrefix s "https://" = true) :
    urlsToCheck s = [s] := by
  unfold urlsToCheck
  rcases h with h | h <;> simp [h]

theorem urlsToCheck_schemeless (s : String)
    (h1 : HasPrefix s "http://" = false) (h2 : HasPrefix s "https://" = false) :
    urlsToCheck s = ["http://" ++ s, "https://" ++ s] := by
  unfold urlsToCheck
  simp [h1, h2]

/-- C2: a raw input that starts with the exact prefix `http://` or `https://`
yields exactly one candidate, the input itself. -/
theorem C2_scheme_input_sole_candidate (s : String)
    (h : (∃ r : String, s = "http://" ++ r) ∨ (∃ r : String, s = "https://" ++ r)) :
    urlsToCheck s = [s] ∧ (urlsToCheck s).length = 1 := by
  have h' : HasPrefix s "http://" = true ∨ HasPrefix s "https://" = true := by
    rcases h with h | h
    · exact Or.inl ((HasPrefix_iff _ _).2 h)
    · exact Or.inr ((HasPrefix_iff _ _).2 h)
  rw [urlsToCheck_with_scheme s h']
  exact ⟨rfl, rfl⟩

/-- A concrete instance of the statement proved for C2. -/
theorem C2_witness :
    urlsToCheck "https://example.com" = ["https://example.com"] ∧
      (urlsToCheck "https://example.com").length = 1 :=
  C2_scheme_input_sole_candidate "https://example.com" (Or.inr ⟨"example.com", by decide⟩)

/-- C3: a raw input that starts with neither `http://` nor `https://` (the
empty string and `HTTP://x` included) yields exactly the two candidates
`http://` ++ s and `https://` ++ s, in that order; every Target yields one or
two candidates, never zero. -/
theorem C3_schemeless_input_two_candidates :
    (∀ s : String, (¬ ∃ r : String, s = "http://" ++ r) →
        (¬ ∃ r : String, s = "https://" ++ r) →
        urlsToCheck s = ["http://" ++ s, "https://" ++ s]) ∧
    urlsToCheck "" = ["http://", "https://"] ∧
    urlsToCheck "HTTP://x" = ["http://HTTP://x", "https://HTTP://x"] ∧
    (∀ s : String, (urlsToCheck s).length = 1 ∨ (urlsToCheck s).length = 2) := by
  refine ⟨?_, by decide, by decide, ?_⟩
  · intro s h1 h2
    apply urlsToCheck_schemeless
    · rw [← Bool.not_eq_true]; exact fun h => h1 ((HasPrefix_iff _ _).1 h)
    · rw [← Bool.not_eq_true]; exact fun h => h2 ((HasPrefix_iff _ _).1 h)
  · intro s
    unfold urlsToCheck
    split <;> simp

/-- A concrete instance of the statement proved for C3. -/
theorem C3_witness :
    urlsToCheck "example.com" = ["http://" ++ "example.com", "https://" ++ "example.com"] :=
  C3_schemeless_input_two_candidates.1 "example.com"
    (fun h => by
      have := (HasPrefix_iff "example.com" "http://").2 h
      revert this; decide)
    (fun h => by
      have := (HasPrefix_iff "example.com" "https://").2 h
      revert this; decide)

/-! ## The loop of `checkURL`: claims -/

theorem sinkWrites_scanTargets (env : Env) (ts : List String) :
    sinkWrites (scanTargets env ts) = ts.flatMap fun t => sinkWrites (checkURL env t) := by
  induction ts with
  | nil => rfl
  | cons t ts ih => simp only [scanTargets, sinkWrites_append, List.flatMap_cons, ih]

theorem stopAtMalformed_of_none (l : List (String × ProbeResult))
    (h : ∀ p ∈ l, isMalformed p = false) : stopAtMalformed l = l := by
  induction l with
  | nil => rfl
  | cons p ps ih =>
    have hp := h p (List.mem_cons_self _ _)
    simp only [stopAtMalformed, hp, Bool.false_eq_true, if_false]
    rw [ih fun q hq => h q (List.mem_cons_of_mem _ hq)]

theorem probeResults_scanTargets (env : Env) (ts : List String) :
    probeResults (scanTargets env ts) =
      ts.flatMap fun t => stopAtMalformed ((urlsToCheck t).map fun u => (u, resultOf env u)) := by
  induction ts with
  | nil => rfl
  | cons t ts ih =>
    simp only [scanTargets, probeResults_append, List.flatMap_cons, ih, checkURL,
      checkLoop_probeResults]

theorem sinkWrites_checkURL (env : Env) (h : WritesSucceed env) (rawURL : String) :
    sinkWrites (checkURL env rawURL) =
      ((stopAtMalformed ((urlsToCheck rawURL).map fun u => (u, resultOf env u))).filter
        isSuccess).map (fun p => p.1 ++ "\n") := by
  unfold checkURL
  rw [checkLoop_sinkWrites env h, checkLoop_probeResults]

/-- C1: with sink writes succeeding, the text `checkURL` appends to the output
sink is fixed by the Target and the outcome assignment: it is the candidates,
taken in order up to the first `MalformedURL`, whose Probe Result is
`Reached 200`, each once and each followed by one newline.  For a Target with a
scheme that is the Target itself when it answers 200 and nothing otherwise; for
a scheme-less Target it is nothing when the `http://` candidate is malformed,
and otherwise the `http://` line when that candidate answers 200 followed by
the `https://` line when that one does.  A scan over a list of Targets appends
the lines of its Targets in order, as many as it has results `Reached 200`. -/
theorem C1_sink_is_exactly_status200_candidates (env : Env) (h : WritesSucceed env)
    (rawURL : String) (targets : List String) :
    sinkWrites (checkURL env rawURL) =
        ((resultsOf env rawURL).filter isSuccess).map (fun p => p.1 ++ "\n") ∧
    sinkText (checkURL env rawURL) =
        concat (((resultsOf env rawURL).filter isSuccess).map (fun p => p.1 ++ "\n")) ∧
    resultsOf env rawURL =
        ((urlsToCheck rawURL).take (resultsOf env rawURL).length).map
          (fun u => (u, resultOf env u)) ∧
    sinkWrites (scanTargets env targets) =
        ((probeResults (scanTargets env targets)).filter isSuccess).map
          (fun p => p.1 ++ "\n") ∧
    (sinkWrites (scanTargets env targets)).length =
        (probeResults (scanTargets env targets)).countP isSuccess ∧
    resultsOf env rawURL =
        stopAtMalformed ((urlsToCheck rawURL).map fun u => (u, resultOf env u)) ∧
    sinkWrites (checkURL env rawURL) =
        ((stopAtMalformed ((urlsToCheck rawURL).map fun u => (u, resultOf env u))).filter
          isSuccess).map (fun p => p.1 ++ "\n") ∧
    (((∃ r : String, rawURL = "http://" ++ r) ∨ (∃ r : String, rawURL = "https://" ++ r)) →
      sinkWrites (checkURL env rawURL) =
        if resultOf env rawURL = .Reached 200 then [rawURL ++ "\n"] else []) ∧
    ((¬ ∃ r : String, rawURL = "http://" ++ r) → (¬ ∃ r : String, rawURL = "https://" ++ r) →
      sinkWrites (checkURL env rawURL) =
        if resultOf env ("http://" ++ rawURL) = .MalformedURL then []
        else
          (if resultOf env ("http://" ++ rawURL) = .Reached 200
            then ["http://" ++ rawURL ++ "\n"] else []) ++
          (if resultOf env ("https://" ++ rawURL) = .Reached 200
            then ["https://" ++ rawURL ++ "\n"] else [])) ∧
    ((∀ u ∈ urlsToCheck rawURL, resultOf env u ≠ .MalformedURL) →
      sinkWrites (checkURL env rawURL) =
        ((urlsToCheck rawURL).filter fun u => decide (resultOf env u = .Reached 200)).map
          (fun u => u ++ "\n")) ∧
    sinkWrites (scanTargets env targets) =
        targets.flatMap (fun t =>
          ((stopAtMalformed ((urlsToCheck t).map fun u => (u, resultOf env u))).filter
            isSuccess).map (fun p => p.1 ++ "\n")) ∧
    probeResults (scanTargets env targets) =
        targets.flatMap (fun t =>
          stopAtMalformed ((urlsToCheck t).map fun u => (u, resultOf env u))) := by
  have h1 := checkLoop_sinkWrites env h (urlsToCheck rawURL)
  have h2 := scanTargets_sinkWrites env h targets
  have h3 := sinkWrites_checkURL env h rawURL
  refine ⟨h1, ?_, ?_, h2, ?_, checkLoop_probeResults env (urlsToCheck rawURL), h3,
    ?_, ?_, ?_, ?_, probeResults_scanTargets env targets⟩
  · exact congrArg concat h1
  · unfold resultsOf checkURL
    rw [checkLoop_probeResults]
    conv_lhs => rw [stopAtMalformed_eq_take]
    rw [List.map_take]
  · rw [h2, List.length_map, List.countP_eq_length_filter]
  · intro hs
    have hs' : HasPrefix rawURL "http://" = true ∨ HasPrefix rawURL "https://" = true := by
      rcases hs with hs | hs
      · exact Or.inl ((HasPrefix_iff _ _).2 hs)
      · exact Or.inr ((HasPrefix_iff _ _).2 hs)
    rw [h3, urlsToCheck_with_scheme rawURL hs']
    cases hr : resultOf env rawURL with
    | MalformedURL => simp [stopAtMalformed, isMalformed, isSuccess, hr]
    | Unreachable => simp [stopAtMalformed, isMalformed, isSuccess, hr]
    | Reached code =>
      by_cases hc : code = 200
      · simp [stopAtMalformed, isMalformed, isSuccess, hr, hc, StatusOK]
      · simp [stopAtMalformed, isMalformed, isSuccess, hr, hc, StatusOK]
  · intro n1 n2
    have hcs : urlsToCheck rawURL = ["http://" ++ rawURL, "https://" ++ rawURL] := by
      apply urlsToCheck_schemeless
      · rw [← Bool.not_eq_true]; exact fun hp => n1 ((HasPrefix_iff _ _).1 hp)
      · rw [← Bool.not_eq_true]; exact fun hp => n2 ((HasPrefix_iff _ _).1 hp)
    rw [h3, hcs]
    cases hr1 : resultOf env ("http://" ++ rawURL) with
    | MalformedURL => simp [stopAtMalformed, isMalformed, isSuccess, hr1]
    | Unreachable =>
      cases hr2 : resultOf env ("https://" ++ rawURL) with
      | MalformedURL => simp [stopAtMalformed, isMalformed, isSuccess, hr1, hr2]
      | Unreachable => simp [stopAtMalformed, isMalformed, isSuccess, hr1, hr2]
      | Reached c2 =>
        by_cases hc2 : c2 = 200
        · simp [stopAtMalformed, isMalformed, isSuccess, hr1, hr2, hc2, StatusOK]
        · simp [stopAtMalformed, isMalformed, isSuccess, hr1, hr2, hc2, StatusOK]
    | Reached c1 =>
      by_cases hc1 : c1 = 200
      · cases hr2 : resultOf env ("https://" ++ rawURL) with
        | MalformedURL => simp [stopAtMalformed, isMalformed, isSuccess, hr1, hr2, hc1, StatusOK]
        | Unreachable => simp [stopAtMalformed, isMalformed, isSuccess, hr1, hr2, hc1, StatusOK]
        | Reached c2 =>
          by_cases hc2 : c2 = 200
          · simp [stopAtMalformed, isMalformed, isSuccess, hr1, hr2, hc1, hc2, StatusOK]
          · simp [stopAtMalformed, isMalformed, isSuccess, hr1, hr2, hc1, hc2, StatusOK]
      · cases hr2 : resultOf env ("https://" ++ rawURL) with
        | MalformedURL => simp [stopAtMalformed, isMalformed, isSuccess, hr1, hr2, hc1, StatusOK]
        | Unreachable => simp [stopAtMalformed, isMalformed, isSuccess, hr1, hr2, hc1, StatusOK]
        | Reached c2 =>
          by_cases hc2 : c2 = 200
          · simp [stopAtMalformed, isMalformed, isSuccess, hr1, hr2, hc1, hc2, StatusOK]
          · simp [stopAtMalformed, isMalformed, isSuccess, hr1, hr2, hc1, hc2, StatusOK]
  · intro hnm
    rw [h3, stopAtMalformed_of_none]
    · rw [List.filter_map, List.map_map]
      rfl
    · intro p hp
      obtain ⟨u, hu, rfl⟩ := List.mem_map.mp hp
      simpa [isMalformed] using hnm u hu
  · rw [sinkWrites_scanTargets]
    congr 1
    funext t
    exact sinkWrites_checkURL env h t

/-- A concrete instance of the statement proved for C1: when both candidates of
`example.com` answer 200 both lines are written, in candidate order; when only
the `http://` candidate does, only its line is. -/
theorem C1_witness :
    sinkWrites (checkURL envAllOk "example.com") =
        ["http://example.com\n", "https://example.com\n"] ∧
    sinkText (checkURL envAllOk "example.com") = "http://example.com\nhttps://example.com\n" ∧
    sinkWrites (checkURL envHttpOnly "example.com") = ["http://example.com\n"] ∧
    sinkWrites (scanTargets envAllOk ["a", "http://b"]) =
        ["http://a\n", "https://a\n", "http://b\n"] :=
  have a := C1_sink_is_exactly_status200_candidates envAllOk (fun _ => rfl)
    "example.com" ["a", "http://b"]
  have b := C1_sink_is_exactly_status200_candidates envHttpOnly (fun _ => rfl)
    "example.com" []
  have n1 : ¬ ∃ r : String, "example.com" = "http://" ++ r := fun hp => by
    have := (HasPrefix_iff "example.com" "http://").2 hp
    revert this; decide
  have n2 : ¬ ∃ r : String, "example.com" = "https://" ++ r := fun hp => by
    have := (HasPrefix_iff "example.com" "https://").2 hp
    revert this; decide
  ⟨(a.2.2.2.2.2.2.2.2.1 n1 n2).trans (by decide),
   a.2.1.trans (by decide),
   (b.2.2.2.2.2.2.2.2.1 n1 n2).trans (by decide),
   a.2.2.2.2.2.2.2.2.2.2.1.trans (by decide)⟩

/-- C4: the Probe Results of a Target are those of its first candidates in
order, at most one per candidate; they fall short of the candidates only when
the last result is `MalformedURL`; a `MalformedURL` result is always the last
one (the sibling is neither parsed nor requested), and any other result is
followed by the next candidate's result. -/
theorem C4_results_stop_only_at_malformed (env : Env) (rawURL : String) :
    (resultsOf env rawURL).length ≤ (urlsToCheck rawURL).length ∧
    resultsOf env rawURL =
        ((urlsToCheck rawURL).take (resultsOf env rawURL).length).map
          (fun u => (u, resultOf env u)) ∧
    parsedURLs (checkURL env rawURL) =
        (urlsToCheck rawURL).take (resultsOf env rawURL).length ∧
    requests (checkURL env rawURL) =
        ((resultsOf env rawURL).filter (fun p => !isMalformed p)).map Prod.fst ∧
    ((resultsOf env rawURL).length < (urlsToCheck rawURL).length →
        ∃ p, (resultsOf env rawURL).getLast? = some p ∧ p.2 = .MalformedURL) ∧
    (∀ i p, (resultsOf env rawURL)[i]? = some p → p.2 = .MalformedURL →
        i + 1 = (resultsOf env rawURL).length) ∧
    (∀ i p, (resultsOf env rawURL)[i]? = some p → p.2 ≠ .MalformedURL →
        i + 1 < (urlsToCheck rawURL).length → i + 1 < (resultsOf env rawURL).length) := by
  have hr : resultsOf env rawURL =
      stopAtMalformed ((urlsToCheck rawURL).map fun u => (u, resultOf env u)) :=
    checkLoop_probeResults env (urlsToCheck rawURL)
  have hlen := stopAtMalformed_length_le ((urlsToCheck rawURL).map fun u => (u, resultOf env u))
  have htake : resultsOf env rawURL =
      ((urlsToCheck rawURL).take (resultsOf env rawURL).length).map
        (fun u => (u, resultOf env u)) := by
    conv_lhs => rw [hr, stopAtMalformed_eq_take, ← hr]
    rw [List.map_take]
  refine ⟨?_, htake, ?_, ?_, ?_, ?_, ?_⟩
  · rw [hr]; simpa using hlen
  · have := checkLoop_parsedURLs env (urlsToCheck rawURL)
    unfold checkURL
    rw [this]
    show (resultsOf env rawURL).map Prod.fst = _
    conv_lhs => rw [htake]
    rw [List.map_map]
    exact List.map_id _
  · exact checkLoop_requests env (urlsToCheck rawURL)
  · intro hlt
    rw [hr] at hlt ⊢
    obtain ⟨p, hp, hm⟩ := stopAtMalformed_short
      ((urlsToCheck rawURL).map fun u => (u, resultOf env u)) (by simpa using hlt)
    exact ⟨p, hp, by simpa [isMalformed] using hm⟩
  · intro i p hp hm
    rw [hr] at hp ⊢
    exact stopAtMalformed_malformed_last _ i p hp (by simp [isMalformed, hm])
  · intro i p hp hm hi
    rw [hr] at hp ⊢
    exact stopAtMalformed_goes_on _ i p hp (by simp [isMalformed, hm]) (by simpa using hi)

/-- A concrete instance of the statement proved for C4. -/
theorem C4_witness :
    (resultsOf envNoParse "bad").length < (urlsToCheck "bad").length ∧
    (∃ p, (resultsOf envNoParse "bad").getLast? = some p ∧ p.2 = .MalformedURL) ∧
    0 + 1 = (resultsOf envNoParse "bad").length ∧
    0 + 1 < (resultsOf envHttpOnly "example.com").length :=
  have a := C4_results_stop_only_at_malformed envNoParse "bad"
  have b := C4_results_stop_only_at_malformed envHttpOnly "example.com"
  ⟨by decide, a.2.2.2.2.1 (by decide),
    a.2.2.2.2.2.1 0 ("http://bad", .MalformedURL) (by decide) rfl,
    b.2.2.2.2.2.2 0 ("http://example.com", .Reached 200) (by decide) (by decide) (by decide)⟩

/-- C5: the console lines of `checkURL` are, in candidate order, those the
specification attaches to each Probe Result: warn for `MalformedURL`, error for
`Unreachable`, success for `Reached 200`, error for any other code, with one
extra plain line after a failed sink write.  For a scheme-less Target whose
`http://` candidate returns 200 and whose `https://` candidate is unreachable,
the status lines are one success then one error line, and (the write
succeeding) the sink receives exactly the `http://` candidate and a newline. -/
theorem C5_console_lines_follow_results (env : Env) (rawURL : String) :
    console (checkURL env rawURL) = (resultsOf env rawURL).flatMap (statusLines env) ∧
    ((console (checkURL env rawURL)).filter isStatusLine).map ConsoleLine.level =
        (resultsOf env rawURL).map (fun p => levelOf p.2) ∧
    ((¬ ∃ r : String, rawURL = "http://" ++ r) → (¬ ∃ r : String, rawURL = "https://" ++ r) →
      resultOf env ("http://" ++ rawURL) = .Reached 200 →
      resultOf env ("https://" ++ rawURL) = .Unreachable →
      ((console (checkURL env rawURL)).filter isStatusLine).map ConsoleLine.level =
          [.success, .error] ∧
      (env.WriteString ("http://" ++ rawURL ++ "\n") = .ok →
        sinkText (checkURL env rawURL) = "http://" ++ rawURL ++ "\n" ∧
        console (checkURL env rawURL) =
          [⟨.success, "URL: " ++ ("http://" ++ rawURL) ++ " Status Code: " ++ "200"⟩,
           ⟨.error, "Cannot access " ++ ("https://" ++ rawURL)⟩])) := by
  have hc := checkLoop_console env (urlsToCheck rawURL)
  refine ⟨hc, ?_, ?_⟩
  · unfold checkURL
    rw [hc]
    exact flatMap_statusLines_levels env _
  · intro h1 h2 r1 r2
    have hcs : urlsToCheck rawURL = ["http://" ++ rawURL, "https://" ++ rawURL] := by
      apply urlsToCheck_schemeless
      · rw [← Bool.not_eq_true]; exact fun h => h1 ((HasPrefix_iff _ _).1 h)
      · rw [← Bool.not_eq_true]; exact fun h => h2 ((HasPrefix_iff _ _).1 h)
    have hrs : resultsOf env rawURL =
        [("http://" ++ rawURL, .Reached 200), ("https://" ++ rawURL, .Unreachable)] := by
      unfold resultsOf checkURL
      rw [checkLoop_probeResults, hcs]
      simp [stopAtMalformed, isMalformed, r1, r2]
    obtain ⟨p1, g1⟩ := resultOf_reached env _ _ r1
    obtain ⟨p2, g2⟩ := resultOf_unreachable env _ r2
    constructor
    · unfold checkURL
      rw [hc]
      rw [flatMap_statusLines_levels]
      show (resultsOf env rawURL).map _ = _
      rw [hrs]
      rfl
    · intro hw
      have htr : checkURL env rawURL =
          [.parse ("http://" ++ rawURL) true, .get ("http://" ++ rawURL) (.resp 200),
           .print ⟨.success, "URL: " ++ ("http://" ++ rawURL) ++ " Status Code: " ++ "200"⟩,
           .write ("http://" ++ rawURL ++ "\n") .ok,
           .parse ("https://" ++ rawURL) true, .get ("https://" ++ rawURL) .err,
           .print ⟨.error, "Cannot access " ++ ("https://" ++ rawURL)⟩] := by
        unfold checkURL
        rw [hcs]
        simp only [checkLoop, checkOne, p1, p2, g1, g2, hw, if_true, StatusOK]
        rfl
      rw [htr]
      constructor
      · simp only [sinkText, sinkWrites, concat]
        simp
      · rfl

/-- A concrete instance of the statement proved for C5. -/
theorem C5_witness :
    ((console (checkURL envHttpOnly "example.com")).filter isStatusLine).map ConsoleLine.level =
        [.success, .error] ∧
    sinkText (checkURL envHttpOnly "example.com") = "http://" ++ "example.com" ++ "\n" :=
  have h := (C5_console_lines_follow_results envHttpOnly "example.com").2.2
    (fun h => by
      have := (HasPrefix_iff "example.com" "http://").2 h
      revert this; decide)
    (fun h => by
      have := (HasPrefix_iff "example.com" "https://").2 h
      revert this; decide)
    (by decide) (by decide)
  ⟨h.1, (h.2 rfl).1⟩



/-! ## The malformed-URL path -/

/-- C6 as stated fails: the parser of the Go standard library accepts both
candidates of the Target `://bad` (scheme `http`, host `:` with an empty port,
path `//bad`), so `checkURL` prints no malformed-URL warning and calls
`client.Get` for both candidates. -/
theorem C6_counterexample_bad_target_parses :
    urlsToCheck "://bad" = ["http://://bad", "https://://bad"] ∧
    url.ParseRequestURI "http://://bad" = true ∧
    url.ParseRequestURI "https://://bad" = true ∧
    console (checkURL envGo "://bad") =
      [⟨.error, "Cannot access http://://bad"⟩, ⟨.error, "Cannot access https://://bad"⟩] ∧
    requests (checkURL envGo "://bad") = ["http://://bad", "https://://bad"] := by
  decide

/-- C6, amended: the candidates of the Target `://bad` are `http://://bad` and
`https://://bad`.  Whenever `url.ParseRequestURI` rejects the first candidate
of a Target, `checkURL` prints exactly one malformed-URL warning, calls
`client.Get` for no candidate, writes nothing to the sink, and parses no
further candidate.  With a parser that accepts what the Go standard library
accepts for the two candidates of `://bad`, no warning is printed and
`client.Get` is called for both. -/
theorem C6_malformed_first_candidate (env : Env) :
    urlsToCheck "://bad" = ["http://://bad", "https://://bad"] ∧
    (∀ rawURL u rest, urlsToCheck rawURL = u :: rest → env.ParseRequestURI u = false →
      console (checkURL env rawURL) = [⟨.warn, "Malformed URL: " ++ u⟩] ∧
      requests (checkURL env rawURL) = [] ∧
      sinkWrites (checkURL env rawURL) = [] ∧
      parsedURLs (checkURL env rawURL) = [u]) ∧
    (env.ParseRequestURI "http://://bad" = url.ParseRequestURI "http://://bad" →
      env.ParseRequestURI "https://://bad" = url.ParseRequestURI "https://://bad" →
      (∀ l ∈ console (checkURL env "://bad"), l.level ≠ .warn) ∧
      requests (checkURL env "://bad") = ["http://://bad", "https://://bad"]) := by
  refine ⟨by decide, ?_, ?_⟩
  · intro rawURL u rest hcs hp
    unfold checkURL
    rw [hcs]
    simp only [checkLoop, checkOne, hp]
    exact ⟨rfl, rfl, rfl, rfl⟩
  · intro h1 h2
    have p1 : env.ParseRequestURI "http://://bad" = true := by rw [h1]; decide
    have p2 : env.ParseRequestURI "https://://bad" = true := by rw [h2]; decide
    have hcs : urlsToCheck "://bad" = ["http://://bad", "https://://bad"] := by decide
    have hrs : resultsOf env "://bad" =
        [("http://://bad", resultOf env "http://://bad"),
         ("https://://bad", resultOf env "https://://bad")] := by
      unfold resultsOf checkURL
      rw [checkLoop_probeResults, hcs]
      simp [stopAtMalformed, isMalformed, resultOf, p1, p2]
      split <;> simp
    constructor
    · intro l hl
      have hc := checkLoop_console env (urlsToCheck "://bad")
      unfold checkURL at hl
      rw [hc] at hl
      change l ∈ (resultsOf env "://bad").flatMap (statusLines env) at hl
      rw [hrs] at hl
      simp only [List.flatMap_cons, List.flatMap_nil, List.append_nil, List.mem_append] at hl
      have key : ∀ u, env.ParseRequestURI u = true →
          ∀ l ∈ statusLines env (u, resultOf env u), l.level ≠ .warn := by
        intro u hu l hl
        unfold resultOf at hl
        simp only [hu, if_true] at hl
        split at hl
        · simp only [statusLines, List.mem_singleton] at hl
          rw [hl]; simp
        · rename_i code _
          by_cases hcode : code = StatusOK
          · simp only [statusLines, hcode, if_true] at hl
            split at hl
            · simp only [List.mem_singleton] at hl
              rw [hl]; simp
            · simp only [List.mem_cons, List.mem_singleton, List.mem_nil_iff, or_false] at hl
              rcases hl with hl | hl <;> (rw [hl]; simp)
          · simp only [statusLines, hcode, if_false, List.mem_singleton] at hl
            rw [hl]; simp
      rcases hl with hl | hl
      · exact key _ p1 l hl
      · exact key _ p2 l hl
    · have hq := checkLoop_requests env (urlsToCheck "://bad")
      unfold checkURL
      rw [hq]
      change ((resultsOf env "://bad").filter _).map _ = _
      rw [hrs]
      have m1 : isMalformed ("http://://bad", resultOf env "http://://bad") = false := by
        simp only [isMalformed, resultOf, p1, if_true]
        split <;> simp
      have m2 : isMalformed ("https://://bad", resultOf env "https://://bad") = false := by
        simp only [isMalformed, resultOf, p2, if_true]
        split <;> simp
      simp [List.filter, m1, m2]

/-- A concrete instance of the statement proved for C6. -/
theorem C6_witness :
    console (checkURL envNoParse "://bad") = [⟨.warn, "Malformed URL: " ++ "http://://bad"⟩] ∧
    requests (checkURL envNoParse "://bad") = [] ∧
    sinkWrites (checkURL envNoParse "://bad") = [] ∧
    parsedURLs (checkURL envNoParse "://bad") = ["http://://bad"] ∧
    requests (checkURL envGo "://bad") = ["http://://bad", "https://://bad"] :=
  have a := (C6_malformed_first_candidate envNoParse).2.1 "://bad" "http://://bad"
    ["https://://bad"] (by decide) rfl
  have b := (C6_malformed_first_candidate envGo).2.2 rfl rfl
  ⟨a.1, a.2.1, a.2.2.1, a.2.2.2, b.2⟩

/-! ## Executions of `main` -/

theorem run_invariant (cfg : Config) (env : Env) (P : State → Prop)
    (hstep : ∀ a s s', P s → step cfg env a s = some s' → P s') :
    ∀ acts s s', P s → run cfg env acts s = some s' → P s' := by
  intro acts
  induction acts with
  | nil =>
    intro s s' hs h
    simp only [run, Option.some.injEq] at h
    exact h ▸ hs
  | cons a as ih =>
    intro s s' hs h
    simp only [run] at h
    split at h
    · rename_i s1 h1
      exact ih s1 s' (hstep a s s1 hs h1) h
    · cases h

theorem reachable_invariant (cfg : Config) (env : Env) (P : State → Prop)
    (hinit : P (init cfg))
    (hstep : ∀ a s s', P s → step cfg env a s = some s' → P s') :
    ∀ s, Reachable cfg env s → P s := by
  rintro s ⟨acts, h⟩
  exact run_invariant cfg env P hstep acts (init cfg) s hinit h

theorem countP_set_add {α : Type} (p : α → Bool) (l : List α) (i : Nat) (x a : α)
    (h : l[i]? = some x) :
    (l.set i a).countP p + (if p x then 1 else 0) = l.countP p + (if p a then 1 else 0) := by
  induction l generalizing i with
  | nil => simp at h
  | cons y ys ih =>
    cases i with
    | zero =>
      simp only [List.getElem?_cons_zero, Option.some.injEq] at h
      subst h
      simp only [List.set_cons_zero, List.countP_cons]
      omega
    | succ j =>
      simp only [List.getElem?_cons_succ] at h
      have := ih j h
      simp only [List.set_cons_succ, List.countP_cons]
      omega

theorem step_PoolInv (cfg : Config) (env : Env) (a : Action) (s s' : State)
    (hinv : PoolInv cfg s) (hstep : step cfg env a s = some s') : PoolInv cfg s' := by
  unfold step at hstep
  split at hstep
  · cases a with
    | main =>
      simp only [stepMain] at hstep
      unfold PoolInv at hinv ⊢
      split at hstep
      · split at hstep
        · cases hstep; simp_all
        · split at hstep
          · cases hstep; simp_all
          · split at hstep
            · cases hstep; simp_all
            · cases hstep; simp_all
      · split at hstep
        · cases hstep; simp_all
        · cases hstep; simp_all
      · rename_i i hpc
        rw [hpc] at hinv
        obtain ⟨hg, hl, hle, hp⟩ := hinv
        split at hstep
        · cases hstep
          refine ⟨?_, ?_, ?_, hp⟩
          · simp [List.countP_append, ConsumerPC.holdsGuard, hg]
          · simp [hl]
          · push_cast; omega
        · cases hstep
          exact ⟨hg, by simp only; omega, hp⟩
      · cases hstep; simp_all
      · cases hstep; simp_all
      · split at hstep
        · split at hstep <;> (cases hstep; simp_all)
        · cases hstep
      · cases hstep
    | consumer i =>
      simp only [stepConsumer] at hstep
      unfold PoolInv at hinv ⊢
      obtain ⟨hg, hp⟩ := hinv
      split at hstep
      · cases hstep
      · rename_i hget
        have hc := fun a => countP_set_add ConsumerPC.holdsGuard s.consumers i _ a hget
        split at hstep
        · cases hstep
          refine ⟨?_, ?_⟩
          · have := hc (.acquire ‹String›)
            simp [ConsumerPC.holdsGuard] at this ⊢
            omega
          · cases hpc : s.pc <;> simp_all
        · split at hstep
          · cases hstep
            refine ⟨?_, ?_⟩
            · have := hc .done
              simp [ConsumerPC.holdsGuard] at this ⊢
              omega
            · cases hpc : s.pc <;> simp_all
          · cases hstep
      · rename_i url hget
        have hc := fun a => countP_set_add ConsumerPC.holdsGuard s.consumers i _ a hget
        split at hstep
        · cases hstep
          refine ⟨?_, ?_⟩
          · have := hc (.running (urlsToCheck url))
            simp [ConsumerPC.holdsGuard] at this ⊢
            omega
          · cases hpc : s.pc <;> simp_all
        · cases hstep
      · rename_i hget
        have hc := fun a => countP_set_add ConsumerPC.holdsGuard s.consumers i _ a hget
        cases hstep
        refine ⟨?_, ?_⟩
        · have := hc .release
          simp [ConsumerPC.holdsGuard] at this ⊢
          omega
        · cases hpc : s.pc <;> simp_all
      · rename_i u rest hget
        have hc := fun a => countP_set_add ConsumerPC.holdsGuard s.consumers i _ a hget
        cases hstep
        refine ⟨?_, ?_⟩
        · have := hc (.running (if (checkOne env u).2 = true then rest else []))
          simp [ConsumerPC.holdsGuard] at this ⊢
          omega
        · cases hpc : s.pc <;> simp_all
      · rename_i hget
        have hc := fun a => countP_set_add ConsumerPC.holdsGuard s.consumers i _ a hget
        cases hstep
        refine ⟨?_, ?_⟩
        · have := hc .recv
          simp [ConsumerPC.holdsGuard] at this ⊢
          omega
        · cases hpc : s.pc <;> simp_all
      · cases hstep
    | producer =>
      simp only [stepProducer] at hstep
      unfold PoolInv at hinv ⊢
      obtain ⟨hg, hp⟩ := hinv
      split at hstep
      · cases hstep
      · split at hstep
        · cases hstep
          exact ⟨hg, by cases hpc : s.pc <;> simp_all⟩
        · cases hstep
          exact ⟨hg, by cases hpc : s.pc <;> simp_all⟩
      · split at hstep
        · cases hstep
          exact ⟨hg, by cases hpc : s.pc <;> simp_all⟩
        · split at hstep
          · cases hstep
            exact ⟨hg, by cases hpc : s.pc <;> simp_all⟩
          · cases hstep
      · cases hstep
    | handler =>
      simp only [stepHandler] at hstep
      unfold PoolInv at hinv ⊢
      split at hstep
      · cases hstep
      · cases hstep; exact hinv
      · split at hstep
        · cases hstep; exact hinv
        · split at hstep
          · cases hstep; exact hinv
          · cases hstep
      · cases hstep; exact hinv
      · split at hstep
        · cases hstep; exact hinv
        · cases hstep; exact hinv
      · cases hstep; exact hinv
    | signal =>
      simp only [stepSignal] at hstep
      unfold PoolInv at hinv ⊢
      split at hstep
      · split at hstep
        · cases hstep; exact hinv
        · split at hstep
          · cases hstep; exact hinv
          · cases hstep; exact hinv
      · cases hstep; exact hinv
  · cases hstep

theorem reachable_stateAfter (cfg : Config) (env : Env) (acts : List Action)
    (h : (run cfg env acts (init cfg)).isSome = true) :
    Reachable cfg env (stateAfter cfg env acts) := by
  refine ⟨acts, ?_⟩
  unfold stateAfter
  cases hr : run cfg env acts (init cfg) with
  | none => rw [hr] at h; cases h
  | some s => rfl

theorem step_ExitInv (cfg : Config) (env : Env) (a : Action) (s s' : State)
    (hinv : ExitInv s) (hstep : step cfg env a s = some s') : ExitInv s' := by
  unfold step at hstep
  unfold ExitInv at hinv ⊢
  split at hstep
  · cases a <;>
      simp only [stepMain, stepConsumer, stepProducer, stepHandler, stepSignal] at hstep <;>
      (repeat' split at hstep) <;>
      first
        | cases hstep; done
        | (cases hstep; simp_all [console_append, console, exitLine])
  · cases hstep

theorem PoolInv_init (cfg : Config) : PoolInv cfg (init cfg) := by
  unfold PoolInv init
  simp

theorem reachable_PoolInv (cfg : Config) (env : Env) (s : State)
    (h : Reachable cfg env s) : PoolInv cfg s :=
  reachable_invariant cfg env (PoolInv cfg) (PoolInv_init cfg)
    (fun a s s' => step_PoolInv cfg env a s s') s h

theorem PoolInv_length_le (cfg : Config) (s : State) (h : PoolInv cfg s)
    (ht : 0 ≤ cfg.threads) : (s.consumers.length : Int) ≤ cfg.threads := by
  obtain ⟨_, hp⟩ := h
  cases hpc : s.pc <;> rw [hpc] at hp <;> simp only at hp
  · simp [hp.1, ht]
  · simp [hp.1, ht]
  · rw [hp.1]; exact hp.2.1
  · exact le_of_eq hp.1
  · exact le_of_eq hp.1
  · exact le_of_eq hp
  · rcases hp with hp | hp
    · simp [hp.2, ht]
    · exact le_of_eq hp

theorem PoolInv_started (cfg : Config) (s : State) (h : PoolInv cfg s)
    (hp : s.producer ≠ .notStarted) : (s.consumers.length : Int) = cfg.threads := by
  obtain ⟨_, hpc⟩ := h
  cases hs : s.pc <;> rw [hs] at hpc <;> simp only at hpc
  · exact absurd hpc.2 hp
  · exact absurd hpc.2 hp
  · exact absurd hpc.2.2 hp
  · exact absurd hpc.2 hp
  · exact absurd hpc.2 hp
  · exact hpc
  · rcases hpc with hpc | hpc
    · exact absurd hpc.1 hp
    · exact hpc

theorem countP_isRunning_le (l : List ConsumerPC) :
    l.countP ConsumerPC.isRunning ≤ l.countP ConsumerPC.holdsGuard := by
  induction l with
  | nil => simp
  | cons c cs ih =>
    simp only [List.countP_cons]
    cases c <;> simp [ConsumerPC.isRunning, ConsumerPC.holdsGuard] <;> omega

/-- C9: in every execution with a thread count `t ≥ 1`, the `checkURL`
invocations in progress never exceed `t`: at most `t` consumers exist, exactly
`t` once the producer has been started, each consumer is in at most one
invocation, and the guard channel holds exactly one value per consumer between
its `guard <- struct{}{}` and its `<-guard`, never more than `t`. -/
theorem C9_active_invocations_bounded (cfg : Config) (env : Env) (s : State)
    (ht : 1 ≤ cfg.threads) (hr : Reachable cfg env s) :
    (active s : Int) ≤ cfg.threads ∧
    (s.consumers.length : Int) ≤ cfg.threads ∧
    (s.producer ≠ .notStarted → (s.consumers.length : Int) = cfg.threads) ∧
    active s ≤ s.consumers.length ∧
    active s ≤ s.guard ∧
    s.guard = s.consumers.countP ConsumerPC.holdsGuard ∧
    (s.guard : Int) ≤ cfg.threads := by
  have hinv := reachable_PoolInv cfg env s hr
  have hlen := PoolInv_length_le cfg s hinv (by omega)
  have hg : s.guard = s.consumers.countP ConsumerPC.holdsGuard := hinv.1
  have h1 : active s ≤ s.guard := by
    rw [hg]; exact countP_isRunning_le s.consumers
  have h2 : s.guard ≤ s.consumers.length := by
    rw [hg]; exact List.countP_le_length _
  refine ⟨by omega, hlen, PoolInv_started cfg s hinv, by omega, h1, hg, by omega⟩

/-- A concrete instance of the statement proved for C9. -/
theorem C9_witness :
    active (stateAfter (goodConfig 1 ["a", "b"]) envGo oneRunningSchedule) = 1 ∧
    ((active (stateAfter (goodConfig 1 ["a", "b"]) envGo oneRunningSchedule) : Nat) : Int) ≤ 1 ∧
    (stateAfter (goodConfig 1 ["a", "b"]) envGo oneRunningSchedule).guard = 1 :=
  have h := C9_active_invocations_bounded (goodConfig 1 ["a", "b"]) envGo
    (stateAfter (goodConfig 1 ["a", "b"]) envGo oneRunningSchedule) (by decide)
    (reachable_stateAfter _ _ _ (by decide))
  ⟨by decide, h.1, by decide⟩

theorem step_NoWork (cfg : Config) (env : Env) (a : Action) (s s' : State)
    (hc : s.consumers = []) (hinv : NoWork s) (hstep : step cfg env a s = some s') :
    NoWork s' := by
  unfold step at hstep
  unfold NoWork at hinv ⊢
  split at hstep
  · cases a <;>
      simp only [stepMain, stepConsumer, stepProducer, stepHandler, stepSignal] at hstep <;>
      (repeat' split at hstep) <;>
      first
        | cases hstep; done
        | (cases hstep
           simp_all [parsedURLs_append, requests_append, sinkWrites_append, parsedURLs,
             requests, sinkWrites, usage])
  · cases hstep

theorem reachable_NoWork (cfg : Config) (env : Env) (ht : cfg.threads = 0) (s : State)
    (h : Reachable cfg env s) : s.consumers = [] ∧ NoWork s := by
  refine reachable_invariant cfg env (fun s => PoolInv cfg s ∧ s.consumers = [] ∧ NoWork s)
    ⟨PoolInv_init cfg, rfl, rfl, rfl, rfl, rfl⟩ ?_ s h |>.2
  rintro a s s' ⟨h1, h2, h3⟩ hstep
  have h1' := step_PoolInv cfg env a s s' h1 hstep
  refine ⟨h1', ?_, step_NoWork cfg env a s s' h2 h3 hstep⟩
  have := PoolInv_length_le cfg s' h1' (by omega)
  rw [ht] at this
  exact List.length_eq_zero.mp (by omega)

/-! ## The thread count -/

/-- C7 as stated fails: with `-t 0` and an input of one line, `main` runs
through to its return with nothing printed and the line never read; with
`-t -1` it reaches the allocation of `guard`, where the runtime panics. -/
theorem C7_counterexample_no_validation :
    (run (goodConfig 0 ["example.com"]) envGo mainOnlySchedule
        (init (goodConfig 0 ["example.com"]))).map
      (fun s => (s.status, s.pc, console s.trace, s.unread)) =
      some (.returned, .done, [], ["example.com"]) ∧
    (run (goodConfig (-1) ["example.com"]) envGo [.main, .main]
        (init (goodConfig (-1) ["example.com"]))).map
      (fun s => (s.status, s.pc, console s.trace)) =
      some (.panicked, .makeGuard, []) := by
  decide

/-- C7, amended: `main` does not validate the thread count.  On a command line
that passes the checks of lines 40-61, a thread count of zero starts no
consumer: `main` alone runs to its return with nothing printed and the input
unread, and in no execution is a Target handed over or a candidate parsed,
requested or written; a negative thread count reaches `make(chan struct{}, t)`,
where the process ends in a panic with nothing printed. -/
theorem C7_thread_count_not_validated (cfg : Config) (env : Env)
    (hh : cfg.showHelp = false) (hin : (cfg.inputFile == "") = false)
    (ho : cfg.openErr = none) (hc : cfg.createErr = none) :
    (cfg.threads = 0 →
      (∃ s, run cfg env mainOnlySchedule (init cfg) = some s ∧ s.status = .returned ∧
        s.trace = [] ∧ s.unread = cfg.lines) ∧
      (∀ s, Reachable cfg env s → s.consumers = [] ∧ NoWork s)) ∧
    (cfg.threads < 0 →
      ∃ s, run cfg env [.main, .main] (init cfg) = some s ∧ s.status = .panicked ∧
        s.pc = .makeGuard ∧ s.trace = []) := by
  constructor
  · intro ht
    refine ⟨?_, fun s hs => reachable_NoWork cfg env ht s hs⟩
    simp [mainOnlySchedule, run, step, stepMain, init, hh, hin, ho, hc, ht]
  · intro ht
    simp [run, step, stepMain, init, hh, hin, ho, hc, ht]

/-- A concrete instance of the statement proved for C7. -/
theorem C7_witness :
    (∃ s, run (goodConfig 0 ["example.com"]) envGo mainOnlySchedule
        (init (goodConfig 0 ["example.com"])) = some s ∧ s.status = .returned ∧
        s.trace = [] ∧ s.unread = ["example.com"]) ∧
    (∃ s, run (goodConfig (-1) ["example.com"]) envGo [.main, .main]
        (init (goodConfig (-1) ["example.com"])) = some s ∧ s.status = .panicked ∧
        s.pc = .makeGuard ∧ s.trace = []) :=
  ⟨((C7_thread_count_not_validated (goodConfig 0 ["example.com"]) envGo rfl (by decide)
      rfl rfl).1 rfl).1,
   (C7_thread_count_not_validated (goodConfig (-1) ["example.com"]) envGo rfl (by decide)
      rfl rfl).2 (by decide)⟩

/-! ## The interrupt -/

theorem reachable_ExitInv (cfg : Config) (env : Env) (s : State)
    (h : Reachable cfg env s) : ExitInv s := by
  refine reachable_invariant cfg env ExitInv ?_ (fun a s s' => step_ExitInv cfg env a s s') s h
  unfold ExitInv init
  simp

/-- C10 fails on the code.  With one thread and the input lines `a`, `b`: a
signal is put on `quitChan` while `b` is unread and the producer waits in its
`select` with `a`; the producer's `<-quitChan` case takes the signal value,
closes `urls` and returns; the consumer leaves its loop and `main` returns.  The
process has ended with `handleInterrupt` still blocked on `quitChan` and the
console empty: `Exit` was never printed.  When `handleInterrupt` is the one to
take the same signal, `Exit` is printed and the process ends in `os.Exit(0)`. -/
theorem C10_signal_taken_by_producer_ends_without_exit :
    (run (goodConfig 1 ["a", "b"]) envGo (stolenSignalSchedule.take 9)
        (init (goodConfig 1 ["a", "b"]))).map
      (fun s => (s.status, s.notified, s.quitBuf, s.unread)) =
      some (Status.running, true, 1, ["b"]) ∧
    (run (goodConfig 1 ["a", "b"]) envGo (stolenSignalSchedule.take 9)
        (init (goodConfig 1 ["a", "b"]))).map
      (fun s => (s.producer, s.handler)) =
      some (ProducerPC.select "a", HandlerPC.recv) ∧
    (run (goodConfig 1 ["a", "b"]) envGo (stolenSignalSchedule.take 10)
        (init (goodConfig 1 ["a", "b"]))).map
      (fun s => (s.quitBuf, s.producer, s.urlsClosed, s.sent, s.handler)) =
      some (0, ProducerPC.done, true, [], HandlerPC.recv) ∧
    (run (goodConfig 1 ["a", "b"]) envGo stolenSignalSchedule
        (init (goodConfig 1 ["a", "b"]))).map
      (fun s => (s.status, s.handler, console s.trace, s.sent, s.unread)) =
      some (Status.returned, HandlerPC.recv, [], [], ["b"]) ∧
    (run (goodConfig 1 ["a", "b"]) envGo handlerExitSchedule
        (init (goodConfig 1 ["a", "b"]))).map
      (fun s => (s.status, s.handler, console s.trace)) =
      some (Status.exited, HandlerPC.exit, [exitLine]) := by
  refine ⟨?_, ?_, ?_, ?_, ?_⟩ <;> decide

/-! ## The sink does not depend on the order of processing -/

theorem sinkWrites_checkLoop_cons (env : Env) (u : String) (rest : List String) :
    sinkWrites (checkLoop env (u :: rest)) =
      sinkWrites (checkOne env u).1 ++
        sinkWrites (checkLoop env (if (checkOne env u).2 then rest else [])) := by
  simp only [checkLoop]
  split
  · rw [sinkWrites_append]
  · simp [checkLoop, sinkWrites]

theorem sum_map_set_add {α : Type} (f : α → Nat) (l : List α) (i : Nat) (x a : α)
    (h : l[i]? = some x) :
    ((l.set i a).map f).sum + f x = (l.map f).sum + f a := by
  induction l generalizing i with
  | nil => simp at h
  | cons y ys ih =>
    cases i with
    | zero =>
      simp only [List.getElem?_cons_zero, Option.some.injEq] at h
      subst h
      simp only [List.set_cons_zero, List.map_cons, List.sum_cons]
      omega
    | succ j =>
      simp only [List.getElem?_cons_succ] at h
      have := ih j h
      simp only [List.set_cons_succ, List.map_cons, List.sum_cons]
      omega

theorem QuietInv_init (cfg : Config) (env : Env) : QuietInv cfg env (init cfg) := by
  unfold QuietInv init owed
  simp [pendingProducer, sinkWrites, scanTargets]

theorem stepConsumer_elim (cfg : Config) (env : Env) (i : Nat) (s s' : State)
    (h : stepConsumer cfg env i s = some s') :
    (∃ text, s.consumers[i]? = some .recv ∧ s.producer = .select text ∧
      s' = { s with consumers := s.consumers.set i (.acquire text), producer := .scan,
                    sent := s.sent ++ [text] }) ∨
    (s.consumers[i]? = some .recv ∧ s.urlsClosed = true ∧
      s' = { s with consumers := s.consumers.set i .done, wg := s.wg - 1 }) ∨
    (∃ url, s.consumers[i]? = some (.acquire url) ∧
      s' = { s with guard := s.guard + 1,
                    consumers := s.consumers.set i (.running (urlsToCheck url)) }) ∨
    (s.consumers[i]? = some (.running []) ∧
      s' = { s with consumers := s.consumers.set i .release }) ∨
    (∃ u rest, s.consumers[i]? = some (.running (u :: rest)) ∧
      s' = { s with trace := s.trace ++ (checkOne env u).1,
                    consumers := s.consumers.set i
                      (.running (if (checkOne env u).2 then rest else [])) }) ∨
    (s.consumers[i]? = some .release ∧
      s' = { s with guard := s.guard - 1, consumers := s.consumers.set i .recv }) := by
  simp only [stepConsumer] at h
  split at h
  · cases h
  · rename_i hget
    split at h
    · rename_i text hp
      cases h
      exact Or.inl ⟨text, hget, hp, rfl⟩
    · split at h
      · rename_i hc
        cases h
        exact Or.inr (Or.inl ⟨hget, hc, rfl⟩)
      · cases h
  · rename_i url hget
    split at h
    · cases h
      exact Or.inr (Or.inr (Or.inl ⟨url, hget, rfl⟩))
    · cases h
  · rename_i hget
    cases h
    exact Or.inr (Or.inr (Or.inr (Or.inl ⟨hget, rfl⟩)))
  · rename_i u rest hget
    cases h
    exact Or.inr (Or.inr (Or.inr (Or.inr (Or.inl ⟨u, rest, hget, rfl⟩))))
  · rename_i hget
    cases h
    exact Or.inr (Or.inr (Or.inr (Or.inr (Or.inr ⟨hget, rfl⟩))))
  · cases h

theorem done_mem_set (l : List ConsumerPC) (i : Nat) (c : ConsumerPC) (hc : c ≠ .done)
    (h : ConsumerPC.done ∈ l.set i c) : ConsumerPC.done ∈ l := by
  rcases List.mem_or_eq_of_mem_set h with h | h
  · exact h
  · exact absurd h.symm hc

theorem step_QuietInv_consumer (cfg : Config) (env : Env) (i : Nat) (s s' : State)
    (hinv : QuietInv cfg env s) (hstep : stepConsumer cfg env i s = some s') :
    QuietInv cfg env s' := by
  obtain ⟨hq, hcl, hh, hwg, hdone, hclosed, hret, hwork⟩ := hinv
  rcases stepConsumer_elim cfg env i s s' hstep with
    ⟨text, hget, hp, rfl⟩ | ⟨hget, hc, rfl⟩ | ⟨url, hget, rfl⟩ | ⟨hget, rfl⟩ |
    ⟨u, rest, hget, rfl⟩ | ⟨hget, rfl⟩
  · have hcnt := countP_set_add ConsumerPC.alive s.consumers i _ (.acquire text) hget
    refine ⟨hq, hcl, hh, ?_, ?_, ?_, (by simpa using hret), ?_⟩
    · simp [ConsumerPC.alive] at hcnt ⊢; omega
    · intro hm; exact hdone (done_mem_set _ _ _ (by simp) hm)
    · intro hu
      have := (hclosed hu).1
      rw [hp] at this; cases this
    · intro x
      have h1 := sum_map_set_add (fun c => (pendingConsumer env c).count x) s.consumers i _
        (.acquire text) hget
      have h2 := hwork x
      simp only [owed, hp, pendingProducer, pendingConsumer, List.count_nil] at h1 h2 ⊢
      omega
  · have hcnt := countP_set_add ConsumerPC.alive s.consumers i _ .done hget
    refine ⟨hq, hcl, hh, ?_, ?_, hclosed, ?_, ?_⟩
    · simp [ConsumerPC.alive] at hcnt ⊢; omega
    · intro _; exact hc
    · intro hs
      have := (hret hs)
      simp only [List.length_set] at this ⊢
      exact ⟨this.1, by omega, this.2.2⟩
    · intro x
      have h1 := sum_map_set_add (fun c => (pendingConsumer env c).count x) s.consumers i _
        .done hget
      have h2 := hwork x
      simp only [owed, pendingConsumer, List.count_nil] at h1 h2 ⊢
      omega
  · have hcnt := countP_set_add ConsumerPC.alive s.consumers i _
      (.running (urlsToCheck url)) hget
    refine ⟨hq, hcl, hh, ?_, ?_, hclosed, (by simpa using hret), ?_⟩
    · simp [ConsumerPC.alive] at hcnt ⊢; omega
    · intro hm; exact hdone (done_mem_set _ _ _ (by simp) hm)
    · intro x
      have h1 := sum_map_set_add (fun c => (pendingConsumer env c).count x) s.consumers i _
        (.running (urlsToCheck url)) hget
      have h2 := hwork x
      simp only [owed, pendingConsumer, checkURL] at h1 h2 ⊢
      omega
  · have hcnt := countP_set_add ConsumerPC.alive s.consumers i _ .release hget
    refine ⟨hq, hcl, hh, ?_, ?_, hclosed, (by simpa using hret), ?_⟩
    · simp [ConsumerPC.alive] at hcnt ⊢; omega
    · intro hm; exact hdone (done_mem_set _ _ _ (by simp) hm)
    · intro x
      have h1 := sum_map_set_add (fun c => (pendingConsumer env c).count x) s.consumers i _
        .release hget
      have h2 := hwork x
      simp only [owed, pendingConsumer, checkLoop, sinkWrites, List.count_nil] at h1 h2 ⊢
      omega
  · have hcnt := countP_set_add ConsumerPC.alive s.consumers i _
      (.running (if (checkOne env u).2 then rest else [])) hget
    refine ⟨hq, hcl, hh, ?_, ?_, hclosed, (by simpa using hret), ?_⟩
    · simp [ConsumerPC.alive] at hcnt ⊢; omega
    · intro hm; exact hdone (done_mem_set _ _ _ (by simp) hm)
    · intro x
      have h1 := sum_map_set_add (fun c => (pendingConsumer env c).count x) s.consumers i _
        (.running (if (checkOne env u).2 then rest else [])) hget
      have h2 := hwork x
      simp only [owed, pendingConsumer, sinkWrites_checkLoop_cons, sinkWrites_append,
        List.count_append] at h1 h2 ⊢
      omega
  · have hcnt := countP_set_add ConsumerPC.alive s.consumers i _ .recv hget
    refine ⟨hq, hcl, hh, ?_, ?_, hclosed, (by simpa using hret), ?_⟩
    · simp [ConsumerPC.alive] at hcnt ⊢; omega
    · intro hm; exact hdone (done_mem_set _ _ _ (by simp) hm)
    · intro x
      have h1 := sum_map_set_add (fun c => (pendingConsumer env c).count x) s.consumers i _
        .recv hget
      have h2 := hwork x
      simp only [owed, pendingConsumer, List.count_nil] at h1 h2 ⊢
      omega

theorem step_QuietInv (cfg : Config) (env : Env) (a : Action) (s s' : State)
    (hh : cfg.showHelp = false) (hin : (cfg.inputFile == "") = false)
    (ho : cfg.openErr = none) (hc : cfg.createErr = none) (ha : a ≠ .signal)
    (hpool : PoolInv cfg s) (hinv : QuietInv cfg env s)
    (hstep : step cfg env a s = some s') : QuietInv cfg env s' := by
  unfold step at hstep
  split at hstep
  · rename_i hrun
    cases a with
    | main =>
      unfold QuietInv owed at hinv ⊢
      unfold PoolInv at hpool
      simp only [stepMain] at hstep
      (repeat' split at hstep) <;>
      first
        | cases hstep; done
        | (cases hstep
           simp_all [ConsumerPC.alive, pendingConsumer, pendingProducer, List.countP_append,
             List.countP_cons, sinkWrites_append, sinkWrites])
    | consumer i => exact step_QuietInv_consumer cfg env i s s' hinv hstep
    | producer =>
      unfold QuietInv owed at hinv ⊢
      simp only [stepProducer] at hstep
      (repeat' split at hstep) <;>
      first
        | cases hstep; done
        | (cases hstep
           simp_all [pendingProducer, scanTargets, sinkWrites_append, sinkWrites,
             Nat.add_assoc])
    | handler =>
      unfold QuietInv owed at hinv ⊢
      simp only [stepHandler] at hstep
      (repeat' split at hstep) <;>
      first
        | cases hstep; done
        | (cases hstep; simp_all)
    | signal => exact absurd rfl ha
  · cases hstep

theorem run_QuietInv (cfg : Config) (env : Env)
    (hh : cfg.showHelp = false) (hin : (cfg.inputFile == "") = false)
    (ho : cfg.openErr = none) (hc : cfg.createErr = none) (acts : List Action) :
    ∀ s s', Action.signal ∉ acts → PoolInv cfg s → QuietInv cfg env s →
      run cfg env acts s = some s' → PoolInv cfg s' ∧ QuietInv cfg env s' := by
  induction acts with
  | nil =>
    intro s s' _ hp hq h
    simp only [run, Option.some.injEq] at h
    subst h
    exact ⟨hp, hq⟩
  | cons a as ih =>
    intro s s' hsig hp hq h
    simp only [run] at h
    split at h
    · rename_i s1 h1
      have ha : a ≠ .signal := fun e => hsig (e ▸ List.mem_cons_self _ _)
      exact ih s1 s' (fun hm => hsig (List.mem_cons_of_mem _ hm))
        (step_PoolInv cfg env a s s1 hp h1)
        (step_QuietInv cfg env a s s1 hh hin ho hc ha hp hq h1) h
    · cases h

theorem all_done_of_countP_alive (l : List ConsumerPC)
    (h : l.countP ConsumerPC.alive = 0) : ∀ c ∈ l, c = .done := by
  intro c hc
  have := List.countP_eq_zero.mp h c hc
  simpa [ConsumerPC.alive] using this

theorem owed_consumers_done (env : Env) (x : String) (l : List ConsumerPC)
    (h : ∀ c ∈ l, c = .done) :
    (l.map fun c => (pendingConsumer env c).count x).sum = 0 := by
  induction l with
  | nil => rfl
  | cons c cs ih =>
    have hc := h c (List.mem_cons_self _ _)
    subst hc
    simp only [List.map_cons, List.sum_cons, pendingConsumer, List.count_nil, Nat.zero_add]
    exact ih fun d hd => h d (List.mem_cons_of_mem _ hd)

theorem returned_sink_perm (cfg : Config) (env : Env) (s : State)
    (ht : 1 ≤ cfg.threads) (hq : QuietInv cfg env s) (hs : s.status = .returned) :
    (sinkWrites s.trace).Perm (sinkWrites (scanTargets env cfg.lines)) := by
  obtain ⟨_, _, _, hwg, hdone, hclosed, hret, hwork⟩ := hq
  obtain ⟨_, hw0, hlen⟩ := hret hs
  have hall := all_done_of_countP_alive s.consumers (by omega)
  have hne : s.consumers ≠ [] := by
    intro he
    rw [he] at hlen
    simp at hlen
    omega
  obtain ⟨c, cs, hcs⟩ := List.exists_cons_of_ne_nil hne
  have hmem : ConsumerPC.done ∈ s.consumers := by
    have := hall c (by rw [hcs]; exact List.mem_cons_self _ _)
    rw [hcs, this]
    exact List.mem_cons_self _ _
  obtain ⟨hp, hu⟩ := hclosed (hdone hmem)
  rw [List.perm_iff_count]
  intro x
  have := hwork x
  simp only [owed, owed_consumers_done env x s.consumers hall, hp, hu, pendingProducer,
    scanTargets, sinkWrites, List.count_nil, Nat.add_zero] at this
  exact this

/-- C8: for a fixed outcome function the sink does not depend on the order of
processing.  The chunks of a sequential scan are the concatenation of each
Target's own chunks, so a permuted list of Targets gives a permutation of the
lines; and every execution of `main` with at least one thread, in which no
signal arrives and `main` has returned, has written a permutation of the lines
of the sequential scan of the input. -/
theorem C8_sink_lines_independent_of_order (env : Env) :
    (∀ ts : List String,
      sinkWrites (scanTargets env ts) = ts.flatMap fun t => sinkWrites (checkURL env t)) ∧
    (∀ ts ts' : List String, ts.Perm ts' →
      (sinkWrites (scanTargets env ts)).Perm (sinkWrites (scanTargets env ts'))) ∧
    (∀ (cfg : Config) (acts : List Action) (s : State),
      cfg.showHelp = false → (cfg.inputFile == "") = false → cfg.openErr = none →
      cfg.createErr = none → 1 ≤ cfg.threads → Action.signal ∉ acts →
      run cfg env acts (init cfg) = some s → s.status = .returned →
      (sinkWrites s.trace).Perm (sinkWrites (scanTargets env cfg.lines))) := by
  refine ⟨sinkWrites_scanTargets env, ?_, ?_⟩
  · intro ts ts' hperm
    rw [sinkWrites_scanTargets, sinkWrites_scanTargets]
    exact hperm.flatMap_right _
  · intro cfg acts s hh hin ho hc ht hsig hrun hs
    have h := run_QuietInv cfg env hh hin ho hc acts (init cfg) s hsig (PoolInv_init cfg)
      (QuietInv_init cfg env) hrun
    exact returned_sink_perm cfg env s ht h.2 hs

/-- A concrete instance of the statement proved for C8. -/
theorem C8_witness :
    (sinkWrites (scanTargets envHttpOnly ["example.com", "b"])).Perm
      (sinkWrites (scanTargets envHttpOnly ["b", "example.com"])) ∧
    (sinkWrites (stateAfter (goodConfig 1 ["example.com"]) envHttpOnly completeSchedule).trace).Perm
      (sinkWrites (scanTargets envHttpOnly (goodConfig 1 ["example.com"]).lines)) ∧
    sinkWrites (stateAfter (goodConfig 1 ["example.com"]) envHttpOnly completeSchedule).trace =
      ["http://example.com\n"] :=
  have h := C8_sink_lines_independent_of_order envHttpOnly
  ⟨h.2.1 ["example.com", "b"] ["b", "example.com"] (List.Perm.swap _ _ _),
   h.2.2 (goodConfig 1 ["example.com"]) completeSchedule
     (stateAfter (goodConfig 1 ["example.com"]) envHttpOnly completeSchedule)
     rfl (by decide) rfl rfl (by decide) (by decide) (by decide) (by decide),
   by decide⟩

end GoHttpScan
